import Mathlib

/-!
Verification of the CineScreen telemetry-to-render pipeline.

The definitions below are a shallow embedding of the TypeScript sources:
cursor interpolation and click animation (src/processing/cursor-utils),
the cursor type stabilizer, the metadata exporter keyframe builder and
coordinate conversion, the zoom tracker, the per-frame plan builders
(sharp-renderer and video-processor) and the mouse effects generator.
Numbers are modelled as rationals where the code only uses field
operations and comparisons, and as reals where the code calls
Math.sqrt or Math.sin.  JavaScript truthiness of optional strings and
numbers is modelled explicitly.  A few definitions referenced by the
code do not appear in the provided sources (the easing library
src/processing/effects.ts, the click animation constants in
src/utils/constants.ts and src/processing/arc-length.ts); those are
modelled from the spec and are marked as such in their doc comments.
-/


/-- Easing identifiers used by keyframes, matching the EasingType string
union of the sources. -/
inductive EasingType where
  | linear
  | easeIn
  | easeOut
  | easeInOut
deriving DecidableEq, Repr

/-- Modelled from the spec: the easing library src/processing/effects.ts is
not among the provided sources.  Section 4.4 requires standard monotonic
boundary preserving curves with f 0 = 0 and f 1 = 1; we use the standard
quadratic ease in. -/
def easeIn {α : Type} [LinearOrderedField α] (t : α) : α := t * t

/-- Modelled from the spec: quadratic ease out, see the comment on easeIn. -/
def easeOut {α : Type} [LinearOrderedField α] (t : α) : α := t * (2 - t)

/-- Modelled from the spec: piecewise quadratic ease in out, see the comment
on easeIn. -/
def easeInOut {α : Type} [LinearOrderedField α] (t : α) : α :=
  if t < 1 / 2 then 2 * t * t else 1 - 2 * (1 - t) * (1 - t)

/-- applyEasing from src/processing/cursor-utils: dispatch on the easing
name; the default branch of the switch is easeInOut. -/
def applyEasing {α : Type} [LinearOrderedField α] (t : α) (easing : EasingType) : α :=
  match easing with
  | .linear => t
  | .easeIn => easeIn t
  | .easeOut => easeOut t
  | .easeInOut => easeInOut t

/-- CursorKeyframe record (types/metadata).  Optional fields are Option. -/
structure CursorKeyframe where
  timestamp : ℚ
  x : ℚ
  y : ℚ
  size : Option ℚ
  shape : Option String
  easing : Option EasingType
deriving DecidableEq, Repr

/-- Result record of interpolateCursorPosition. -/
structure CursorPos where
  x : ℚ
  y : ℚ
  size : Option ℚ
  shape : Option String
deriving DecidableEq, Repr

/-- JavaScript a || b for an optional string a: undefined and the empty
string are falsy. -/
def jsOrShape (a b : Option String) : Option String :=
  match a with
  | none => b
  | some s => if s = "" then b else some s

/-- JavaScript s || dflt for an optional string, yielding a string. -/
def jsOrString (a : Option String) (dflt : String) : String :=
  match a with
  | none => dflt
  | some s => if s = "" then dflt else s

/-- JavaScript a || b for an optional number a: undefined and 0 are falsy. -/
def jsOrNum (a b : Option ℚ) : Option ℚ :=
  match a with
  | none => b
  | some v => if v = 0 then b else some v

/-- Easing taken from a keyframe: prevKeyframe.easing || the linear
default (cursor-utils line 252). -/
def easingOf (k : CursorKeyframe) : EasingType := k.easing.getD .linear

/-- The bracket search loop of interpolateCursorPosition (cursor-utils
lines 219-232).  kf0 is keyframes[0]; prev and next are the loop local
variables; the then branch sets next to keyframes[i+1] when present and
keyframes[i] otherwise, and the else branch performs the break. -/
def bracketLoop (kf0 : CursorKeyframe) (timestamp : ℚ) :
    List CursorKeyframe → Option CursorKeyframe → Option CursorKeyframe →
    Option CursorKeyframe × Option CursorKeyframe
  | [], prev, next => (prev, next)
  | k :: rest, prev, _ =>
    if k.timestamp ≤ timestamp then
      bracketLoop kf0 timestamp rest (some k) (some (rest.headD k))
    else
      match prev with
      | none => (some kf0, some kf0)
      | some p => (some p, some k)

/-- The blending step of interpolateCursorPosition after the bracketing
pair is found (cursor-utils lines 238-268), including the equal
timestamp early return and the timeDiff > 0 guard. -/
def interpSegment (prev next : CursorKeyframe) (timestamp : ℚ) : CursorPos :=
  if prev.timestamp = next.timestamp then
    ⟨prev.x, prev.y, prev.size, prev.shape⟩
  else
    let timeDiff := next.timestamp - prev.timestamp
    let t := if 0 < timeDiff then (timestamp - prev.timestamp) / timeDiff else 0
    let easedT := applyEasing t (easingOf prev)
    let size :=
      match prev.size, next.size with
      | some a, some b => some (a + (b - a) * easedT)
      | _, _ => jsOrNum prev.size next.size
    ⟨prev.x + (next.x - prev.x) * easedT,
     prev.y + (next.y - prev.y) * easedT,
     size,
     jsOrShape prev.shape next.shape⟩

/-- interpolateCursorPosition from src/processing/cursor-utils. -/
def interpolateCursorPosition (keyframes : List CursorKeyframe) (timestamp : ℚ) :
    Option CursorPos :=
  match keyframes with
  | [] => none
  | [kf] => some ⟨kf.x, kf.y, kf.size, kf.shape⟩
  | kf0 :: kf1 :: rest =>
    match bracketLoop kf0 timestamp (kf0 :: kf1 :: rest) none none with
    | (some prev, some next) => some (interpSegment prev next timestamp)
    | _ => none

/-- Shorthand for the ordering of keyframes by timestamp. -/
def kfLE (a b : CursorKeyframe) : Prop := a.timestamp ≤ b.timestamp

instance : DecidableRel kfLE := fun a b => inferInstanceAs (Decidable (a.timestamp ≤ b.timestamp))

/-- The sorted sequence used to refute C1 as stated: two keyframes share
timestamp 0 with different positions. -/
def c1ex : List CursorKeyframe :=
  [⟨0, 1, 0, none, none, none⟩, ⟨0, 2, 0, none, none, none⟩]

/-- Look ahead window in milliseconds (cursor-utils line 24). -/
def CURSOR_TYPE_LOOKAHEAD_MS : ℚ := 100

/-- The expression keyframe.shape || arrow (cursor-utils lines 42 and 60). -/
def shapeD (k : CursorKeyframe) : String := jsOrString k.shape "arrow"

/-- The look ahead loop of getStabilizedCursorType (cursor-utils lines
54-68): scan forward, stop at the first keyframe past the window, and
report whether a scanned keyframe reverts to the current type.  The
JavaScript loop also writes a sustainedType local on every non reverting
iteration, but that local is dead: the function returns newType on every
path that does not revert, so the scan reduces to this membership test. -/
def lookaheadReverts (currentType : String) (lookaheadEnd : ℚ) :
    List CursorKeyframe → Bool
  | [] => false
  | k :: rest =>
    if lookaheadEnd < k.timestamp then false
    else if shapeD k = currentType then true
    else lookaheadReverts currentType lookaheadEnd rest

/-- getStabilizedCursorType from src/processing/cursor-utils. -/
def getStabilizedCursorType (keyframes : List CursorKeyframe) (currentIndex : ℕ)
    (timestamp : ℚ) (currentType : String) (lookaheadMs : ℚ) : String :=
  if keyframes.length = 0 then currentType
  else
    match keyframes[currentIndex]? with
    | none => currentType
    | some keyframe =>
      let newType := shapeD keyframe
      if newType = currentType then currentType
      else if lookaheadReverts currentType (timestamp + lookaheadMs)
          (keyframes.drop (currentIndex + 1)) then currentType
      else newType

/-- State of the CursorTypeStabilizer class (cursor-utils lines 77-132). -/
structure CursorTypeStabilizer where
  currentType : String
  keyframes : List CursorKeyframe
  lookaheadMs : ℚ

/-- The current index scan of CursorTypeStabilizer.update (lines 107-114):
the last index whose timestamp is at most the query time, scanning until
the first later keyframe; 0 when the first keyframe is already later. -/
def findCurrentIndex (timestamp : ℚ) : List CursorKeyframe → ℕ → ℕ → ℕ
  | [], _, acc => acc
  | k :: rest, i, acc =>
    if k.timestamp ≤ timestamp then findCurrentIndex timestamp rest (i + 1) i
    else acc

/-- CursorTypeStabilizer.update (cursor-utils lines 98-127), returning the
reported type together with the updated state. -/
def CursorTypeStabilizer.update (st : CursorTypeStabilizer) (newType : Option String)
    (timestamp : ℚ) : String × CursorTypeStabilizer :=
  let type := jsOrString newType "arrow"
  if type = st.currentType then (st.currentType, st)
  else
    let currentIndex := findCurrentIndex timestamp st.keyframes 0 0
    let stabilized := getStabilizedCursorType st.keyframes currentIndex timestamp
      st.currentType st.lookaheadMs
    (stabilized, ⟨stabilized, st.keyframes, st.lookaheadMs⟩)

/-- Feed a sequence of (shape, timestamp) samples through the stabilizer,
collecting the reported types. -/
def runStabilizer : CursorTypeStabilizer → List (Option String × ℚ) → List String
  | _, [] => []
  | st, (ty, ts) :: rest =>
    let r := st.update ty ts
    r.1 :: runStabilizer r.2 rest

/-- Refinement definition following the words of the spec (section 4.3
shape stabilization and claim C2): if no sample within the look ahead
window reverts to the current shape, the last observed shape within the
window is adopted.  This is compared against getStabilizedCursorType. -/
def specAdoptedShape (keyframes : List CursorKeyframe) (currentIndex : ℕ)
    (timestamp : ℚ) (currentType : String) (lookaheadMs : ℚ) : String :=
  match keyframes[currentIndex]? with
  | none => currentType
  | some keyframe =>
    let newType := shapeD keyframe
    if newType = currentType then currentType
    else
      let window := (keyframes.drop (currentIndex + 1)).filter
        (fun k => decide (k.timestamp ≤ timestamp + lookaheadMs))
      if window.any (fun k => shapeD k == currentType) then currentType
      else ((window.map shapeD).getLastD newType)

/-- The A A B A A sequence: the brief ibeam flicker at 60 ms reverts to
arrow at 90 ms, inside the 100 ms window. -/
def flickerKfs : List CursorKeyframe :=
  [⟨0, 0, 0, none, some "arrow", none⟩, ⟨30, 0, 0, none, some "arrow", none⟩,
   ⟨60, 0, 0, none, some "ibeam", none⟩, ⟨90, 0, 0, none, some "arrow", none⟩,
   ⟨120, 0, 0, none, some "arrow", none⟩]

/-- The A A B B B sequence: ibeam is sustained from 60 ms onwards. -/
def sustainedKfs : List CursorKeyframe :=
  [⟨0, 0, 0, none, some "arrow", none⟩, ⟨30, 0, 0, none, some "arrow", none⟩,
   ⟨60, 0, 0, none, some "ibeam", none⟩, ⟨90, 0, 0, none, some "ibeam", none⟩,
   ⟨120, 0, 0, none, some "ibeam", none⟩]

/-- The sequence used to refute the last observed shape clause of C2:
current type arrow, candidate ibeam at index 0, and within the window the
last observed shape is crosshair. -/
def c2ex : List CursorKeyframe :=
  [⟨0, 0, 0, none, some "ibeam", none⟩, ⟨10, 0, 0, none, some "crosshair", none⟩]

/-- ClickEvent record (types/metadata): a coordinate converted down or up
sample with its button. -/
structure ClickEvent where
  timestamp : ℚ
  x : ℚ
  y : ℚ
  button : String
  action : String
deriving DecidableEq, Repr

/-- The most recent click scan of calculateClickAnimationScale
(cursor-utils lines 282-289): keep the down event with the largest
timestamp among those with 0 <= timestamp - click.timestamp <= duration. -/
def clickStep (animationDurationMs timestamp : ℚ) (acc : Option ClickEvent)
    (c : ClickEvent) : Option ClickEvent :=
  let timeSinceClick := timestamp - c.timestamp
  if 0 ≤ timeSinceClick ∧ timeSinceClick ≤ animationDurationMs then
    match acc with
    | none => some c
    | some m => if m.timestamp < c.timestamp then some c else acc
  else acc

/-- calculateClickAnimationScale from src/processing/cursor-utils.
Modelled from the spec: the constants CURSOR_CLICK_ANIMATION_DURATION_MS
and CURSOR_CLICK_ANIMATION_SCALE live in src/utils/constants.ts, which is
not among the provided sources; section 4.3 names them animationDurationMs
and the configured minimum scale, so the function takes them as the
parameters animationDurationMs and animationScale. -/
def calculateClickAnimationScale (animationDurationMs animationScale : ℚ)
    (timestamp : ℚ) (clicks : List ClickEvent) : ℚ :=
  let clickDownEvents := clicks.filter (fun c => decide (c.action = "down"))
  let mostRecentClick :=
    clickDownEvents.foldl (clickStep animationDurationMs timestamp) none
  match mostRecentClick with
  | none => 1
  | some m =>
    let timeSinceClick := timestamp - m.timestamp
    let progress := timeSinceClick / animationDurationMs
    if progress < 1 / 2 then
      1 - (1 - animationScale) * easeOut (progress * 2)
    else
      animationScale + (1 - animationScale) * easeIn ((progress - 1 / 2) * 2)

/-- Width and height of a screen or video. -/
structure Dimensions where
  width : ℚ
  height : ℚ
deriving DecidableEq, Repr

/-- The recording region rectangle of the metadata exporter options. -/
structure RecordingRegion where
  x : ℚ
  y : ℚ
  width : ℚ
  height : ℚ
deriving DecidableEq, Repr

/-- convertToVideoCoordinates, the closure defined in
MetadataExporter.exportMetadata (metadata exporter lines 499-546): region
offset subtraction, scale selection, conditional scaling, and the clamp
into video bounds. -/
def convertToVideoCoordinates (videoDimensions : Dimensions)
    (screenDimensions : Option Dimensions) (recordingRegion : Option RecordingRegion)
    (screenX screenY : ℚ) : ℚ × ℚ :=
  let x0 := match recordingRegion with
    | some r => screenX - r.x
    | none => screenX
  let y0 := match recordingRegion with
    | some r => screenY - r.y
    | none => screenY
  let scale : ℚ × ℚ := match recordingRegion with
    | some r => (videoDimensions.width / r.width, videoDimensions.height / r.height)
    | none =>
      match screenDimensions with
      | some s =>
        if s.width ≠ videoDimensions.width ∨ s.height ≠ videoDimensions.height then
          (videoDimensions.width / s.width, videoDimensions.height / s.height)
        else (1, 1)
      | none => (1, 1)
  let x1 := if scale.1 ≠ 1 ∨ scale.2 ≠ 1 then x0 * scale.1 else x0
  let y1 := if scale.1 ≠ 1 ∨ scale.2 ≠ 1 then y0 * scale.2 else y0
  (max 0 (min videoDimensions.width x1), max 0 (min videoDimensions.height y1))

/-- MouseEvent record (types/index and types/metadata): a raw telemetry
sample.  The numeric type is a parameter so the same record serves the
rational and the real valued parts of the embedding. -/
structure MouseEvent (α : Type) where
  timestamp : α
  x : α
  y : α
  action : Option String
  button : Option String
  cursorType : Option String
deriving DecidableEq, Repr

/-- JavaScript truthiness of an optional string: undefined and the empty
string are falsy. -/
def jsTruthyStr (s : Option String) : Bool :=
  match s with
  | none => false
  | some v => decide (v ≠ "")

/-- The valid cursor shape names of toCursorShape (metadata exporter
lines 330-336). -/
def validShapes : List String :=
  ["arrow", "pointer", "hand", "openhand", "closedhand", "crosshair",
   "ibeam", "ibeamvertical", "move", "resizeleft", "resizeright",
   "resizeleftright", "resizeup", "resizedown", "resizeupdown", "resize",
   "copy", "dragcopy", "draglink", "help", "notallowed", "contextmenu",
   "poof", "screenshot", "zoomin", "zoomout"]

/-- toCursorShape (metadata exporter lines 327-338): falsy input and
unknown names fall back to arrow. -/
def toCursorShape (cursorType : Option String) : String :=
  match cursorType with
  | none => "arrow"
  | some s =>
    if s = "" then "arrow"
    else if s ∈ validShapes then s else "arrow"

/-- The convertCoords helper of convertMouseEventsToKeyframes (metadata
exporter lines 358-360): apply the optional converter. -/
def convertCoordsFn (conv : Option (ℚ → ℚ → ℚ × ℚ)) (x y : ℚ) : ℚ × ℚ :=
  match conv with
  | some f => f x y
  | none => (x, y)

/-- Click event extraction loop of convertMouseEventsToKeyframes
(metadata exporter lines 363-376): down or up events with a truthy
button. -/
def extractClickEvents (conv : Option (ℚ → ℚ → ℚ × ℚ))
    (mouseEvents : List (MouseEvent ℚ)) : List ClickEvent :=
  mouseEvents.filterMap (fun e =>
    if (e.action = some "down" ∨ e.action = some "up") ∧ jsTruthyStr e.button = true then
      some ⟨e.timestamp, (convertCoordsFn conv e.x e.y).1,
        (convertCoordsFn conv e.x e.y).2, e.button.getD "", e.action.getD ""⟩
    else none)

/-- One keyframe per move event (metadata exporter lines 384-394), with
linear easing. -/
def moveKeyframes (conv : Option (ℚ → ℚ → ℚ × ℚ))
    (moveEvents : List (MouseEvent ℚ)) : List CursorKeyframe :=
  moveEvents.map (fun e =>
    ⟨e.timestamp, (convertCoordsFn conv e.x e.y).1, (convertCoordsFn conv e.x e.y).2,
      none, some (toCursorShape e.cursorType), some .linear⟩)

/-- Synthesis of the keyframe at timestamp 0 (metadata exporter lines
396-406) when the first keyframe starts later. -/
def ensureZeroKeyframe (conv : Option (ℚ → ℚ → ℚ × ℚ))
    (moveEvents : List (MouseEvent ℚ)) (base : List CursorKeyframe) :
    List CursorKeyframe :=
  match base.head?, moveEvents.head? with
  | some b0, some m0 =>
    if 0 < b0.timestamp then
      ⟨0, (convertCoordsFn conv m0.x m0.y).1, (convertCoordsFn conv m0.x m0.y).2,
        none, some (toCursorShape m0.cursorType), some .linear⟩ :: base
    else base
  | _, _ => base

/-- Synthesis of the trailing keyframe at the video duration (metadata
exporter lines 408-417) when the last keyframe ends earlier. -/
def ensureEndKeyframe (videoDuration : ℚ) (l : List CursorKeyframe) :
    List CursorKeyframe :=
  match l.getLast? with
  | some lastKeyframe =>
    if 0 < videoDuration ∧ lastKeyframe.timestamp < videoDuration then
      l ++ [⟨videoDuration, lastKeyframe.x, lastKeyframe.y, none,
        lastKeyframe.shape, none⟩]
    else l
  | none => l

/-- Fallback when there are no move events (metadata exporter lines
418-441): a keyframe at 0 from the first event and one at the video
duration from the last event. -/
def fallbackKeyframes (conv : Option (ℚ → ℚ → ℚ × ℚ)) (videoDuration : ℚ)
    (mouseEvents : List (MouseEvent ℚ)) : List CursorKeyframe :=
  match mouseEvents with
  | [] => []
  | firstEvent :: _ =>
    let firstKf : CursorKeyframe :=
      ⟨0, (convertCoordsFn conv firstEvent.x firstEvent.y).1,
        (convertCoordsFn conv firstEvent.x firstEvent.y).2,
        none, some (toCursorShape firstEvent.cursorType), some .linear⟩
    if 0 < videoDuration then
      let lastEvent := mouseEvents.getLastD firstEvent
      [firstKf,
        ⟨videoDuration, (convertCoordsFn conv lastEvent.x lastEvent.y).1,
          (convertCoordsFn conv lastEvent.x lastEvent.y).2,
          none, some (toCursorShape lastEvent.cursorType), none⟩]
    else [firstKf]

/-- The unsorted keyframe list of convertMouseEventsToKeyframes (metadata
exporter lines 378-441). -/
def buildKeyframes (conv : Option (ℚ → ℚ → ℚ × ℚ)) (videoDuration : ℚ)
    (mouseEvents : List (MouseEvent ℚ)) : List CursorKeyframe :=
  let moveEvents := mouseEvents.filter (fun e => decide (e.action = some "move"))
  if 0 < moveEvents.length then
    ensureEndKeyframe videoDuration
      (ensureZeroKeyframe conv moveEvents (moveKeyframes conv moveEvents))
  else fallbackKeyframes conv videoDuration mouseEvents

/-- convertMouseEventsToKeyframes (metadata exporter lines 344-452): both
output lists are sorted by timestamp with the stable JavaScript sort,
modelled by the stable merge sort. -/
def convertMouseEventsToKeyframes (mouseEvents : List (MouseEvent ℚ))
    (videoDuration : ℚ) (conv : Option (ℚ → ℚ → ℚ × ℚ)) :
    List CursorKeyframe × List ClickEvent :=
  if mouseEvents.length = 0 then ([], [])
  else
    ((buildKeyframes conv videoDuration mouseEvents).mergeSort
        (fun a b => decide (a.timestamp ≤ b.timestamp)),
     (extractClickEvents conv mouseEvents).mergeSort
        (fun a b => decide (a.timestamp ≤ b.timestamp)))

/-- VideoDimensions record of src/processing/zoom-tracker (real valued,
since this part of the pipeline computes with Math.sqrt). -/
structure VideoDimensions where
  width : ℝ
  height : ℝ

/-- ZoomConfig record (types/index). -/
structure ZoomConfig where
  enabled : Bool
  level : ℝ
  transitionSpeed : ℝ
  padding : ℝ
  followSpeed : ℝ

/-- ZoomRegion record of src/processing/zoom-tracker. -/
structure ZoomRegion where
  timestamp : ℝ
  centerX : ℝ
  centerY : ℝ
  cropWidth : ℝ
  cropHeight : ℝ
  scale : ℝ

/-- calculateZoomRegion from src/processing/zoom-tracker (lines 651-681).
The timestamp is 0, set by the caller; padding is destructured by the
source but unused. -/
noncomputable def calculateZoomRegion (mouseX mouseY : ℝ)
    (videoDimensions : VideoDimensions) (zoomConfig : ZoomConfig) : ZoomRegion :=
  let cropWidth := videoDimensions.width / zoomConfig.level
  let cropHeight := videoDimensions.height / zoomConfig.level
  let maxX := videoDimensions.width - cropWidth / 2
  let minX := cropWidth / 2
  let maxY := videoDimensions.height - cropHeight / 2
  let minY := cropHeight / 2
  let centerX := max minX (min maxX mouseX)
  let centerY := max minY (min maxY mouseY)
  ⟨0, centerX, centerY, cropWidth, cropHeight, zoomConfig.level⟩

/-- Placeholder sample used to model the JavaScript indexing expression
events[...] on lists; the zoom tracker is only invoked with nonempty
event lists (on an empty list the JavaScript would throw before reading
fields). -/
def dummyEvent : MouseEvent ℝ := ⟨0, 0, 0, none, none, none⟩

/-- The event index scan of generateZoomRegions (zoom-tracker lines
736-743): last index with timestamp at most the target time, stopping at
the first later event. -/
noncomputable def findEventIndex (targetTime : ℝ) : List (MouseEvent ℝ) → ℕ → ℕ → ℕ
  | [], _, acc => acc
  | e :: rest, i, acc =>
    if e.timestamp ≤ targetTime then findEventIndex targetTime rest (i + 1) i
    else acc

/-- calculateMovementSpeed from generateZoomRegions (zoom-tracker lines
716-729): Euclidean distance between adjacent samples over their time
difference, 0 at the borders or when the time difference is 0. -/
noncomputable def calculateMovementSpeed (events : List (MouseEvent ℝ))
    (eventIndex : ℕ) : ℝ :=
  if eventIndex = 0 ∨ events.length - 1 ≤ eventIndex then 0
  else
    let prev := (events[eventIndex - 1]?).getD dummyEvent
    let curr := (events[eventIndex]?).getD dummyEvent
    let timeDiff := curr.timestamp - prev.timestamp
    if timeDiff = 0 then 0
    else Real.sqrt ((curr.x - prev.x) ^ 2 + (curr.y - prev.y) ^ 2) / timeDiff

/-- One iteration of a per frame loop carrying running state, emitting one
record per frame index. -/
def frameLoop {σ β : Type} (step : σ → ℕ → β × σ) : σ → List ℕ → List β
  | _, [] => []
  | s, i :: rest =>
    let r := step s i
    r.1 :: frameLoop step r.2 rest

/-- The body of the per frame loop of generateZoomRegions (zoom-tracker
lines 732-791).  The state is the currentRegion accumulator together with
transitionStartTime. -/
noncomputable def zoomStep (events : List (MouseEvent ℝ))
    (videoDimensions : VideoDimensions) (zoomConfig : ZoomConfig)
    (frameInterval : ℝ) (st : Option ZoomRegion × ℝ) (frame : ℕ) :
    ZoomRegion × (Option ZoomRegion × ℝ) :=
  let targetTime := (frame : ℝ) * frameInterval
  let eventIndex := findEventIndex targetTime events 0 0
  let event := (events[min eventIndex (events.length - 1)]?).getD dummyEvent
  let movementSpeed := calculateMovementSpeed events eventIndex
  let speedThreshold : ℝ := 2
  let adjustedZoomLevel :=
    if speedThreshold < movementSpeed then
      max 1 (zoomConfig.level - (movementSpeed - speedThreshold) * 0.1)
    else zoomConfig.level
  let adjustedConfig : ZoomConfig := ⟨zoomConfig.enabled, adjustedZoomLevel,
    zoomConfig.transitionSpeed, zoomConfig.padding, zoomConfig.followSpeed⟩
  let target0 := calculateZoomRegion event.x event.y videoDimensions adjustedConfig
  let targetRegion : ZoomRegion := ⟨targetTime, target0.centerX, target0.centerY,
    target0.cropWidth, target0.cropHeight, target0.scale⟩
  match st.1 with
  | none => (targetRegion, (some targetRegion, st.2))
  | some currentRegion =>
    let timeSince := targetTime - st.2
    let transitionProgress := min 1 (timeSince / zoomConfig.transitionSpeed)
    let easedProgress := easeInOut transitionProgress
    let blended : ZoomRegion := ⟨targetTime,
      currentRegion.centerX + (targetRegion.centerX - currentRegion.centerX) *
        easedProgress * zoomConfig.followSpeed,
      currentRegion.centerY + (targetRegion.centerY - currentRegion.centerY) *
        easedProgress * zoomConfig.followSpeed,
      currentRegion.cropWidth + (targetRegion.cropWidth - currentRegion.cropWidth) *
        easedProgress,
      currentRegion.cropHeight + (targetRegion.cropHeight - currentRegion.cropHeight) *
        easedProgress,
      currentRegion.scale + (targetRegion.scale - currentRegion.scale) * easedProgress⟩
    if 1 ≤ transitionProgress then (targetRegion, (some targetRegion, targetTime))
    else (blended, (some blended, st.2))

/-- generateZoomRegions from src/processing/zoom-tracker (lines 686-794). -/
noncomputable def generateZoomRegions (events : List (MouseEvent ℝ))
    (videoDimensions : VideoDimensions) (zoomConfig : ZoomConfig)
    (frameRate videoDuration : ℝ) : List ZoomRegion :=
  if zoomConfig.enabled = false then
    [⟨0, videoDimensions.width / 2, videoDimensions.height / 2,
      videoDimensions.width, videoDimensions.height, 1⟩]
  else
    let frameInterval := 1000 / frameRate
    let totalFrames := (Int.ceil (videoDuration / frameInterval)).toNat
    frameLoop (zoomStep events videoDimensions zoomConfig frameInterval)
      (none, 0) (List.range totalFrames)

/-- FrameData record of src/processing/sharp-renderer. -/
structure FrameData where
  frameIndex : ℕ
  timestamp : ℝ
  cursorX : ℝ
  cursorY : ℝ
  zoomCenterX : ℝ
  zoomCenterY : ℝ
  zoomLevel : ℝ

/-- The body of the per frame loop of createFrameDataFromEvents
(sharp-renderer lines 155-199); the state is the smoothed zoom center
(currentZoomX, currentZoomY).  The currentZoomLevel local of the source
is written once and never read. -/
noncomputable def frameDataStep (events : List (MouseEvent ℝ)) (scaleX scaleY followSpeed : ℝ)
    (zoomConfig : Option ZoomConfig) (frameInterval : ℝ)
    (st : ℝ × ℝ) (frameIndex : ℕ) : FrameData × (ℝ × ℝ) :=
  let timestamp := (frameIndex : ℝ) * frameInterval
  let eventIndex := findEventIndex timestamp events 0 0
  let event := (events[min eventIndex (events.length - 1)]?).getD ⟨0, 0, 0, none, none, none⟩
  let cursorX := event.x * scaleX
  let cursorY := event.y * scaleY
  match zoomConfig with
  | some cfg =>
    if cfg.enabled then
      let newZoomX := st.1 + (cursorX - st.1) * followSpeed
      let newZoomY := st.2 + (cursorY - st.2) * followSpeed
      (⟨frameIndex, timestamp, cursorX, cursorY, newZoomX, newZoomY, cfg.level⟩,
        (newZoomX, newZoomY))
    else (⟨frameIndex, timestamp, cursorX, cursorY, cursorX, cursorY, 1⟩, st)
  | none => (⟨frameIndex, timestamp, cursorX, cursorY, cursorX, cursorY, 1⟩, st)

/-- createFrameDataFromEvents from src/processing/sharp-renderer (lines
133-202). -/
noncomputable def createFrameDataFromEvents (events : List (MouseEvent ℝ))
    (frameRate videoDuration : ℝ)
    (videoDimensions screenDimensions : VideoDimensions)
    (zoomConfig : Option ZoomConfig) : List FrameData :=
  let frameInterval := 1000 / frameRate
  let totalFrames := (Int.ceil (videoDuration / frameInterval)).toNat
  let scaleX := videoDimensions.width / screenDimensions.width
  let scaleY := videoDimensions.height / screenDimensions.height
  let followSpeed := match zoomConfig with
    | some cfg => cfg.followSpeed
    | none => 0.1
  frameLoop (frameDataStep events scaleX scaleY followSpeed zoomConfig frameInterval)
    (videoDimensions.width / 2, videoDimensions.height / 2)
    (List.range totalFrames)

/-- Point2D of src/processing/arc-length. -/
structure Point2D where
  x : ℝ
  y : ℝ

/-- Modelled from the spec: interpolate2DArcLength lives in
src/processing/arc-length.ts, which is not among the provided sources.
Sections 4.5 and 8 describe constant speed interpolation along the
straight path between the two centers; for a straight segment this is the
blend of the endpoints by the parameter warped by the sub easing (the
section 8 test uses linear sub easing and expects the midpoint at
t = 0.5).  The first easing name of the call site selects the transition
profile and does not change the path, so it is not used here. -/
noncomputable def interpolate2DArcLength (start finish : Point2D) (t : ℝ) :
    EasingType → EasingType → Point2D := fun _ subEasing =>
  let u := applyEasing t subEasing
  ⟨start.x + (finish.x - start.x) * u, start.y + (finish.y - start.y) * u⟩

/-- JavaScript Math.round: floor of x + 1/2, as a real number. -/
noncomputable def jsRound (x : ℝ) : ℝ := ((round x : ℤ) : ℝ)

/-- The record returned by getZoomDataAtTimestamp (video-processor). -/
structure ZoomData where
  centerX : ℝ
  centerY : ℝ
  cropX : ℝ
  cropY : ℝ
  cropWidth : ℝ
  cropHeight : ℝ
  zoomLevel : ℝ

/-- The region bracket scan of getZoomDataAtTimestamp (video-processor
lines 539-546): starting from (regions[0], regions[0]), advance while the
region timestamp is at most the query time; next is the following region,
or the region itself at the end of the list. -/
noncomputable def regionBracketLoop (timestamp : ℝ) :
    List ZoomRegion → ZoomRegion × ZoomRegion → ZoomRegion × ZoomRegion
  | [], acc => acc
  | r :: rest, acc =>
    if r.timestamp ≤ timestamp then regionBracketLoop timestamp rest (r, rest.headD r)
    else acc

/-- getZoomDataAtTimestamp from src/processing/video-processor (lines
517-583). -/
noncomputable def getZoomDataAtTimestamp (regions : List ZoomRegion)
    (timestamp : ℝ) (videoDimensions : VideoDimensions) : ZoomData :=
  match regions with
  | [] =>
    ⟨videoDimensions.width / 2, videoDimensions.height / 2, 0, 0,
      videoDimensions.width, videoDimensions.height, 1⟩
  | r0 :: rest =>
    let pq := regionBracketLoop timestamp (r0 :: rest) (r0, r0)
    let prevRegion := pq.1
    let nextRegion := pq.2
    let timeDiff := nextRegion.timestamp - prevRegion.timestamp
    let t := if 0 < timeDiff then (timestamp - prevRegion.timestamp) / timeDiff else 0
    let c := interpolate2DArcLength ⟨prevRegion.centerX, prevRegion.centerY⟩
      ⟨nextRegion.centerX, nextRegion.centerY⟩ t .easeInOut .linear
    let cropWidth := prevRegion.cropWidth + (nextRegion.cropWidth - prevRegion.cropWidth) * t
    let cropHeight := prevRegion.cropHeight +
      (nextRegion.cropHeight - prevRegion.cropHeight) * t
    let zoomLevel := prevRegion.scale + (nextRegion.scale - prevRegion.scale) * t
    let cropX := max 0 (min (videoDimensions.width - cropWidth) (c.x - cropWidth / 2))
    let cropY := max 0 (min (videoDimensions.height - cropHeight) (c.y - cropHeight / 2))
    ⟨jsRound c.x, jsRound c.y, jsRound cropX, jsRound cropY, jsRound cropWidth,
      jsRound cropHeight, zoomLevel⟩

/-- FrameZoomData record of src/processing/video-processor. -/
structure FrameZoomData where
  frameIndex : ℕ
  timestamp : ℝ
  centerX : ℝ
  centerY : ℝ
  cropX : ℝ
  cropY : ℝ
  cropWidth : ℝ
  cropHeight : ℝ
  zoomLevel : ℝ

/-- calculateFrameZoomData from src/processing/video-processor (lines
487-511). -/
noncomputable def calculateFrameZoomData (regions : List ZoomRegion)
    (videoDimensions : VideoDimensions) (frameRate videoDuration : ℝ) :
    List FrameZoomData :=
  let frameInterval := 1000 / frameRate
  let totalFrames := (Int.ceil (videoDuration / frameInterval)).toNat
  (List.range totalFrames).map (fun (frameIndex : ℕ) =>
    let timestamp := (frameIndex : ℝ) * frameInterval
    let zd := getZoomDataAtTimestamp regions timestamp videoDimensions
    ⟨frameIndex, timestamp, zd.centerX, zd.centerY, zd.cropX, zd.cropY,
      zd.cropWidth, zd.cropHeight, zd.zoomLevel⟩)

/-- The highlightRing part of MouseEffectsConfig (types/index). -/
structure HighlightRingConfig where
  enabled : Bool
  size : ℝ
  color : String
  pulseSpeed : ℝ

/-- EffectFrame record of src/processing/mouse-effects; the field kind is
named type in the source. -/
structure EffectFrame where
  timestamp : ℝ
  kind : String
  x : ℝ
  y : ℝ
  opacity : ℝ
  size : ℝ
  color : String

/-- generateHighlightRing from src/processing/mouse-effects (lines
104-139).  The frameInterval local of the source is computed but never
used. -/
noncomputable def generateHighlightRing (events : List (MouseEvent ℝ))
    (config : HighlightRingConfig) (_frameRate : ℝ) : List EffectFrame :=
  if config.enabled = false then []
  else
    events.filterMap (fun event =>
      if event.action ≠ some "move" then none
      else
        let timeInSeconds := event.timestamp / 1000
        let pulse := Real.sin (timeInSeconds * config.pulseSpeed * 10) * 0.5 + 0.5
        some ⟨event.timestamp, "highlightRing", event.x, event.y,
          0.7 + pulse * 0.3, config.size * (1 + pulse * 0.2), config.color⟩)

/-- The full data model invariant on a zoom region: positive crop sizes
bounded by the video, and the crop rectangle derived from center and half
crop inside the video bounds. -/
def regionTight (d : VideoDimensions) (r : ZoomRegion) : Prop :=
  0 < r.cropWidth ∧ r.cropWidth ≤ d.width ∧
  0 < r.cropHeight ∧ r.cropHeight ≤ d.height ∧
  0 ≤ r.centerX - r.cropWidth / 2 ∧ r.centerX + r.cropWidth / 2 ≤ d.width ∧
  0 ≤ r.centerY - r.cropHeight / 2 ∧ r.centerY + r.cropHeight / 2 ≤ d.height

/-- The weaker invariant that survives blending: positive crop sizes
bounded by the video and the center inside the video rectangle. -/
def regionBounded (d : VideoDimensions) (r : ZoomRegion) : Prop :=
  0 < r.cropWidth ∧ r.cropWidth ≤ d.width ∧
  0 < r.cropHeight ∧ r.cropHeight ≤ d.height ∧
  0 ≤ r.centerX ∧ r.centerX ≤ d.width ∧
  0 ≤ r.centerY ∧ r.centerY ≤ d.height

/-- Inputs used to refute the crop rectangle containment for blended
regions: a fast jump of the cursor (speed 300 px/ms) drops the adjusted
zoom level to 1 mid transition while followSpeed 0 keeps the center at the
old corner position. -/
def c3dims : VideoDimensions := ⟨100, 100⟩

/-- Zoom configuration of the counterexample: level 2, transition 300 ms,
followSpeed 0 (claim C3 allows any followSpeed in [0,1]). -/
def c3cfg : ZoomConfig := ⟨true, 2, 300, 0, 0⟩

/-- Events of the counterexample: cursor rests at the corner, then jumps
300 px within 1 ms. -/
noncomputable def c3events : List (MouseEvent ℝ) :=
  [⟨0, 0, 0, some "move", none, none⟩, ⟨50, 0, 0, some "move", none, none⟩,
   ⟨51, 300, 0, some "move", none, none⟩, ⟨200, 300, 0, some "move", none, none⟩]

/-- The first emitted region of the counterexample run. -/
def c3r0 : ZoomRegion := ⟨0, 25, 25, 50, 50, 2⟩

/-- The second, blended region of the counterexample run: its crop
rectangle starts at 25 - (550/9)/2 < 0. -/
noncomputable def c3r1 : ZoomRegion := ⟨100, 25, 25, 550 / 9, 550 / 9, 16 / 9⟩

theorem applyEasing_zero (e : EasingType) : applyEasing (0 : ℚ) e = 0 := by
  cases e <;> norm_num [applyEasing, easeIn, easeOut, easeInOut]

theorem bracketLoop_all_le (kf0 klast : CursorKeyframe) (timestamp : ℚ) :
    ∀ (l : List CursorKeyframe) (p n : Option CursorKeyframe),
      (∀ k ∈ l ++ [klast], k.timestamp ≤ timestamp) →
      bracketLoop kf0 timestamp (l ++ [klast]) p n = (some klast, some klast) := by
  intro l
  induction l with
  | nil =>
    intro p n h
    have hk : klast.timestamp ≤ timestamp := h klast (by simp)
    simp [bracketLoop, hk]
  | cons a rest ih =>
    intro p n h
    have ha : a.timestamp ≤ timestamp := h a (by simp)
    have h2 : ∀ k ∈ rest ++ [klast], k.timestamp ≤ timestamp := by
      intro k hk
      exact h k (by simpa using Or.inr (by simpa using hk))
    simpa [bracketLoop, ha] using ih _ _ h2

theorem bracketLoop_split (kf0 klast r : CursorKeyframe) (timestamp : ℚ) :
    ∀ (l l2 : List CursorKeyframe) (p n : Option CursorKeyframe),
      (∀ k ∈ l ++ [klast], k.timestamp ≤ timestamp) →
      timestamp < r.timestamp →
      bracketLoop kf0 timestamp (l ++ klast :: r :: l2) p n = (some klast, some r) := by
  intro l
  induction l with
  | nil =>
    intro l2 p n h hr
    have hk : klast.timestamp ≤ timestamp := h klast (by simp)
    simp [bracketLoop, hk, not_le.mpr hr, List.headD]
  | cons a rest ih =>
    intro l2 p n h hr
    have ha : a.timestamp ≤ timestamp := h a (by simp)
    have h2 : ∀ k ∈ rest ++ [klast], k.timestamp ≤ timestamp := by
      intro k hk
      exact h k (by simpa using Or.inr (by simpa using hk))
    simpa [bracketLoop, ha] using ih l2 _ _ h2 hr

theorem bracketLoop_isSome (kf0 : CursorKeyframe) (timestamp : ℚ) :
    ∀ (l : List CursorKeyframe) (p n : Option CursorKeyframe),
      (l ≠ [] ∨ (p.isSome ∧ n.isSome)) →
      (bracketLoop kf0 timestamp l p n).1.isSome ∧
        (bracketLoop kf0 timestamp l p n).2.isSome := by
  intro l
  induction l with
  | nil =>
    intro p n h
    rcases h with h | h
    · exact absurd rfl h
    · simpa [bracketLoop] using h
  | cons a rest ih =>
    intro p n _
    by_cases ha : a.timestamp ≤ timestamp
    · simpa [bracketLoop, ha] using
        ih (some a) (some (rest.headD a)) (Or.inr (by simp))
    · cases p with
      | none => simp [bracketLoop, ha]
      | some q => simp [bracketLoop, ha]

/-- interpolateCursorPosition on a list of length at least two delegates to
the bracket loop. -/
theorem interpolateCursorPosition_cons₂ (kf0 kf1 : CursorKeyframe)
    (rest : List CursorKeyframe) (timestamp : ℚ) :
    interpolateCursorPosition (kf0 :: kf1 :: rest) timestamp =
      match bracketLoop kf0 timestamp (kf0 :: kf1 :: rest) none none with
      | (some prev, some next) => some (interpSegment prev next timestamp)
      | _ => none := rfl

/-- For a sorted sequence split as A ++ p :: q :: B with the query
timestamp inside the segment [p.timestamp, q.timestamp), the interpolation
engine blends exactly the bracketing pair (p, q). -/
theorem interpolate_on_segment (A B : List CursorKeyframe) (p q : CursorKeyframe)
    (timestamp : ℚ)
    (hA : ∀ k ∈ A, k.timestamp ≤ p.timestamp)
    (hpt : p.timestamp ≤ timestamp) (htq : timestamp < q.timestamp) :
    interpolateCursorPosition (A ++ p :: q :: B) timestamp =
      some (interpSegment p q timestamp) := by
  have hall : ∀ k ∈ A ++ [p], k.timestamp ≤ timestamp := by
    intro k hk
    rcases List.mem_append.mp hk with h | h
    · exact le_trans (hA k h) hpt
    · simp only [List.mem_singleton] at h
      exact h ▸ hpt
  cases A with
  | nil =>
    have hb := bracketLoop_split p p q timestamp [] B none none (by simpa using hall) htq
    rw [show (([] : List CursorKeyframe) ++ p :: q :: B) = p :: q :: B from rfl] at hb
    rw [List.nil_append, interpolateCursorPosition_cons₂, hb]
  | cons a A2 =>
    have hb := bracketLoop_split a p q timestamp (a :: A2) B none none hall htq
    cases A2 with
    | nil =>
      rw [show ([a] ++ p :: q :: B) = a :: p :: q :: B from rfl,
        interpolateCursorPosition_cons₂]
      rw [show ((a :: [])) ++ p :: q :: B = a :: p :: q :: B from rfl] at hb
      rw [hb]
    | cons b A3 =>
      rw [show ((a :: b :: A3) ++ p :: q :: B) = a :: b :: (A3 ++ p :: q :: B) from rfl,
        interpolateCursorPosition_cons₂]
      rw [show ((a :: b :: A3)) ++ p :: q :: B = a :: b :: (A3 ++ p :: q :: B) from rfl] at hb
      rw [hb]

theorem interpolate_of_ne_nil (kf0 : CursorKeyframe) (rest : List CursorKeyframe)
    (h : rest ≠ []) (timestamp : ℚ) :
    interpolateCursorPosition (kf0 :: rest) timestamp =
      match bracketLoop kf0 timestamp (kf0 :: rest) none none with
      | (some prev, some next) => some (interpSegment prev next timestamp)
      | _ => none := by
  cases rest with
  | nil => exact absurd rfl h
  | cons kf1 r2 => rfl

theorem interpSegment_at_left (p q : CursorKeyframe) (h : p.timestamp < q.timestamp) :
    (interpSegment p q p.timestamp).x = p.x ∧ (interpSegment p q p.timestamp).y = p.y := by
  have hne : p.timestamp ≠ q.timestamp := ne_of_lt h
  have hd : 0 < q.timestamp - p.timestamp := by linarith
  simp only [interpSegment, hne, if_false, hd, if_true, sub_self, zero_div,
    applyEasing_zero]
  constructor <;> ring

/-- The interpolation engine queried at the timestamp of a keyframe k whose
strict successors all have strictly larger timestamps returns exactly the
position of k. -/
theorem interpolate_at_last_of_timestamp (A B : List CursorKeyframe) (k : CursorKeyframe)
    (hA : ∀ a ∈ A, a.timestamp ≤ k.timestamp)
    (hB : ∀ r ∈ B, k.timestamp < r.timestamp) :
    ∃ v, interpolateCursorPosition (A ++ k :: B) k.timestamp = some v ∧
      v.x = k.x ∧ v.y = k.y := by
  cases B with
  | nil =>
    cases A with
    | nil =>
      exact ⟨⟨k.x, k.y, k.size, k.shape⟩, rfl, rfl, rfl⟩
    | cons a A2 =>
      have hall : ∀ j ∈ (a :: A2) ++ [k], j.timestamp ≤ k.timestamp := by
        intro j hj
        rcases List.mem_append.mp hj with h | h
        · exact hA j h
        · simp only [List.mem_singleton] at h
          exact h ▸ le_refl _
      have hb := bracketLoop_all_le a k k.timestamp (a :: A2) none none hall
      have hsh : ((a :: A2) ++ [k]) = a :: (A2 ++ [k]) := rfl
      rw [hsh] at hb
      rw [hsh, interpolate_of_ne_nil a (A2 ++ [k]) (by simp) k.timestamp, hb]
      exact ⟨⟨k.x, k.y, k.size, k.shape⟩, by simp [interpSegment], rfl, rfl⟩
  | cons r B2 =>
    have hall : ∀ j ∈ A ++ [k], j.timestamp ≤ k.timestamp := by
      intro j hj
      rcases List.mem_append.mp hj with h | h
      · exact hA j h
      · simp only [List.mem_singleton] at h
        exact h ▸ le_refl _
    have hr : k.timestamp < r.timestamp := hB r (by simp)
    have hseg := interpSegment_at_left k r hr
    cases A with
    | nil =>
      have hb := bracketLoop_split k k r k.timestamp [] B2 none none hall hr
      rw [show (([] : List CursorKeyframe) ++ k :: r :: B2) = k :: r :: B2 from rfl] at hb
      rw [List.nil_append, interpolate_of_ne_nil k (r :: B2) (by simp) k.timestamp, hb]
      exact ⟨interpSegment k r k.timestamp, rfl, hseg.1, hseg.2⟩
    | cons a A2 =>
      have hb := bracketLoop_split a k r k.timestamp (a :: A2) B2 none none hall hr
      have hsh : ((a :: A2) ++ k :: r :: B2) = a :: (A2 ++ k :: r :: B2) := rfl
      rw [hsh] at hb
      rw [hsh, interpolate_of_ne_nil a (A2 ++ k :: r :: B2) (by simp) k.timestamp, hb]
      exact ⟨interpSegment k r k.timestamp, rfl, hseg.1, hseg.2⟩

/-- C1 (amended): in a sorted keyframe sequence, querying the interpolation
engine at the timestamp of a keyframe k that is the last keyframe carrying
its timestamp returns exactly the x and y of k. -/
theorem interpolate_at_keyframe_timestamp (A B : List CursorKeyframe) (k : CursorKeyframe)
    (hs : List.Pairwise kfLE (A ++ k :: B))
    (hB : ∀ r ∈ B, r.timestamp ≠ k.timestamp) :
    ∃ v, interpolateCursorPosition (A ++ k :: B) k.timestamp = some v ∧
      v.x = k.x ∧ v.y = k.y := by
  rcases List.pairwise_append.mp hs with ⟨_, hkB, hcross⟩
  have hA : ∀ a ∈ A, a.timestamp ≤ k.timestamp := by
    intro a ha
    exact hcross a ha k (by simp)
  have hB2 : ∀ r ∈ B, k.timestamp < r.timestamp := by
    intro r hrB
    have hle : k.timestamp ≤ r.timestamp := (List.pairwise_cons.mp hkB).1 r hrB
    exact lt_of_le_of_ne hle (fun h => hB r hrB h.symm)
  exact interpolate_at_last_of_timestamp A B k hA hB2

theorem interpolate_at_keyframe_timestamp_witness :
    List.Pairwise kfLE [⟨0, 1, 2, none, none, none⟩, ⟨10, 3, 4, none, none, none⟩,
      ⟨20, 5, 6, none, none, none⟩] ∧
    (∀ r ∈ [(⟨20, 5, 6, none, none, none⟩ : CursorKeyframe)], r.timestamp ≠ 10) ∧
    ∃ v, interpolateCursorPosition [⟨0, 1, 2, none, none, none⟩, ⟨10, 3, 4, none, none, none⟩,
      ⟨20, 5, 6, none, none, none⟩] 10 = some v ∧ v.x = 3 ∧ v.y = 4 :=
  ⟨by decide, by decide,
    interpolate_at_keyframe_timestamp [⟨0, 1, 2, none, none, none⟩]
      [⟨20, 5, 6, none, none, none⟩] ⟨10, 3, 4, none, none, none⟩
      (by decide) (by decide)⟩

/-- C1 (counterexample): the first keyframe of c1ex has timestamp 0 and
x = 1, yet the interpolation engine queried at 0 returns x = 2, so the
claim that every keyframe is reproduced exactly at its own timestamp
fails on sequences where consecutive keyframes share a timestamp. -/
theorem c1_counterexample :
    List.Pairwise kfLE c1ex ∧
    (⟨0, 1, 0, none, none, none⟩ : CursorKeyframe) ∈ c1ex ∧
    (interpolateCursorPosition c1ex 0).map CursorPos.x = some 2 ∧
    (2 : ℚ) ≠ 1 := by decide

/-- C10: interpolateCursorPosition returns none exactly on the empty list;
on any nonempty list and any query timestamp it returns a position; and
when the bracketing pair found by the scan has equal timestamps the result
is the values of the earlier keyframe of the pair, taken verbatim. -/
theorem interpolate_none_iff_empty :
    (∀ t : ℚ, interpolateCursorPosition [] t = none) ∧
    (∀ (kfs : List CursorKeyframe) (t : ℚ), kfs ≠ [] →
      (interpolateCursorPosition kfs t).isSome) ∧
    (∀ (kf0 : CursorKeyframe) (rest : List CursorKeyframe) (t : ℚ)
      (p q : CursorKeyframe), rest ≠ [] →
      bracketLoop kf0 t (kf0 :: rest) none none = (some p, some q) →
      p.timestamp = q.timestamp →
      interpolateCursorPosition (kf0 :: rest) t = some ⟨p.x, p.y, p.size, p.shape⟩) := by
  refine ⟨fun _ => rfl, ?_, ?_⟩
  · intro kfs t hne
    match kfs with
    | [] => exact absurd rfl hne
    | [kf] => simp [interpolateCursorPosition]
    | kf0 :: kf1 :: r2 =>
      have hb := bracketLoop_isSome kf0 t (kf0 :: kf1 :: r2) none none (Or.inl (by simp))
      rcases Option.isSome_iff_exists.mp hb.1 with ⟨p, hp⟩
      rcases Option.isSome_iff_exists.mp hb.2 with ⟨q, hq⟩
      have hpair : bracketLoop kf0 t (kf0 :: kf1 :: r2) none none = (some p, some q) := by
        have h1 : (bracketLoop kf0 t (kf0 :: kf1 :: r2) none none).1 = some p := hp
        have h2 : (bracketLoop kf0 t (kf0 :: kf1 :: r2) none none).2 = some q := hq
        exact Prod.ext h1 h2
      rw [interpolateCursorPosition_cons₂, hpair]
      simp
  · intro kf0 rest t p q hne hbr heq
    rw [interpolate_of_ne_nil kf0 rest hne, hbr]
    simp [interpSegment, heq]

theorem interpolate_none_iff_empty_witness :
    (([⟨5, 7, 8, none, none, none⟩] : List CursorKeyframe) ≠ [] ∧
      (interpolateCursorPosition [⟨5, 7, 8, none, none, none⟩] 99).isSome) ∧
    interpolateCursorPosition
      (⟨0, 1, 0, none, none, none⟩ :: [⟨0, 2, 0, none, none, none⟩]) 0 =
      some ⟨2, 0, none, none⟩ :=
  ⟨⟨by decide, interpolate_none_iff_empty.2.1 _ 99 (by decide)⟩,
    interpolate_none_iff_empty.2.2 ⟨0, 1, 0, none, none, none⟩
      [⟨0, 2, 0, none, none, none⟩] 0 ⟨0, 2, 0, none, none, none⟩
      ⟨0, 2, 0, none, none, none⟩ (by decide) (by decide) (by decide)⟩

theorem lookaheadReverts_iff (currentType : String) (endT : ℚ) :
    ∀ l : List CursorKeyframe, List.Pairwise kfLE l →
      (lookaheadReverts currentType endT l = true ↔
        ∃ k ∈ l, k.timestamp ≤ endT ∧ shapeD k = currentType) := by
  intro l
  induction l with
  | nil => simp [lookaheadReverts]
  | cons k rest ih =>
    intro hp
    rcases List.pairwise_cons.mp hp with ⟨hk, hrest⟩
    by_cases hend : endT < k.timestamp
    · simp only [lookaheadReverts, if_pos hend, Bool.false_eq_true, false_iff]
      rintro ⟨j, hj, hjt, _⟩
      rcases List.mem_cons.mp hj with rfl | hj2
      · exact absurd hjt (not_le.mpr hend)
      · exact absurd hjt (not_le.mpr (lt_of_lt_of_le hend (hk j hj2)))
    · by_cases hsh : shapeD k = currentType
      · simp only [lookaheadReverts, if_neg hend, if_pos hsh, true_iff]
        exact ⟨k, by simp, le_of_not_lt hend, hsh⟩
      · simp only [lookaheadReverts, if_neg hend, if_neg hsh]
        rw [ih hrest]
        constructor
        · rintro ⟨j, hj, hjt, hjs⟩
          exact ⟨j, by simp [hj], hjt, hjs⟩
        · rintro ⟨j, hj, hjt, hjs⟩
          rcases List.mem_cons.mp hj with rfl | hj2
          · exact absurd hjs hsh
          · exact ⟨j, hj2, hjt, hjs⟩

/-- C2 (amended): when the sample at the query index carries a candidate
shape different from the current shape S, the stabilizer keeps S exactly
when some upcoming keyframe within the look ahead window has shape S, and
otherwise adopts the candidate shape (not the last observed shape within
the window).  The two synthetic sequences behave as the claim states:
A A B A A with the brief B stabilizes to A throughout, and A A B B B
switches to B at the first B sample. -/
theorem getStabilizedCursorType_spec :
    (∀ (kfs : List CursorKeyframe) (i : ℕ) (t L : ℚ) (S : String)
      (kf : CursorKeyframe),
      List.Pairwise kfLE kfs → kfs[i]? = some kf → shapeD kf ≠ S →
      ((getStabilizedCursorType kfs i t S L = S ↔
          ∃ k ∈ kfs.drop (i + 1), k.timestamp ≤ t + L ∧ shapeD k = S) ∧
        ((¬ ∃ k ∈ kfs.drop (i + 1), k.timestamp ≤ t + L ∧ shapeD k = S) →
          getStabilizedCursorType kfs i t S L = shapeD kf))) ∧
    runStabilizer ⟨"arrow", flickerKfs, 100⟩
      (flickerKfs.map fun k => (k.shape, k.timestamp)) =
      ["arrow", "arrow", "arrow", "arrow", "arrow"] ∧
    runStabilizer ⟨"arrow", sustainedKfs, 100⟩
      (sustainedKfs.map fun k => (k.shape, k.timestamp)) =
      ["arrow", "arrow", "ibeam", "ibeam", "ibeam"] := by
  refine ⟨?_, ?_, ?_⟩
  · intro kfs i t L S kf hp hget hne
    have hkfs : ¬ kfs.length = 0 := by
      intro h0
      rw [List.eq_nil_of_length_eq_zero h0] at hget
      simp at hget
    have hrev := lookaheadReverts_iff S (t + L) (kfs.drop (i + 1)) hp.drop
    rw [getStabilizedCursorType, if_neg hkfs]
    rw [hget]
    simp only [if_neg hne]
    by_cases hb : lookaheadReverts S (t + L) (kfs.drop (i + 1)) = true
    · rw [if_pos hb]
      constructor
      · simp only [true_iff]
        exact hrev.mp hb
      · intro hnex
        exact absurd (hrev.mp hb) hnex
    · rw [if_neg hb]
      constructor
      · constructor
        · intro h
          exact absurd h hne
        · intro hex
          exact absurd (hrev.mpr hex) hb
      · intro _
        rfl
  · norm_num [runStabilizer, CursorTypeStabilizer.update, findCurrentIndex,
      getStabilizedCursorType, lookaheadReverts, shapeD, jsOrString,
      flickerKfs, (show ("ibeam" : String) ≠ "" by decide),
      (show ("ibeam" : String) ≠ "arrow" by decide),
      (show ("arrow" : String) ≠ "" by decide),
      (show ("arrow" : String) ≠ "ibeam" by decide)]
  · norm_num [runStabilizer, CursorTypeStabilizer.update, findCurrentIndex,
      getStabilizedCursorType, lookaheadReverts, shapeD, jsOrString,
      sustainedKfs, (show ("ibeam" : String) ≠ "" by decide),
      (show ("ibeam" : String) ≠ "arrow" by decide),
      (show ("arrow" : String) ≠ "" by decide),
      (show ("arrow" : String) ≠ "ibeam" by decide)]

theorem getStabilizedCursorType_spec_witness :
    List.Pairwise kfLE flickerKfs ∧
    flickerKfs[2]? = some ⟨60, 0, 0, none, some "ibeam", none⟩ ∧
    shapeD ⟨60, 0, 0, none, some "ibeam", none⟩ ≠ "arrow" ∧
    (getStabilizedCursorType flickerKfs 2 60 "arrow" 100 = "arrow" ↔
      ∃ k ∈ flickerKfs.drop 3, k.timestamp ≤ 60 + 100 ∧ shapeD k = "arrow") :=
  ⟨by decide, by decide, by decide,
    (getStabilizedCursorType_spec.1 flickerKfs 2 60 100 "arrow"
      ⟨60, 0, 0, none, some "ibeam", none⟩ (by decide) (by decide) (by decide)).1⟩

/-- C2 (counterexample): the stabilizer adopts the candidate shape ibeam,
not the last observed shape crosshair demanded by the claim. -/
theorem c2_counterexample :
    List.Pairwise kfLE c2ex ∧
    getStabilizedCursorType c2ex 0 0 "arrow" 100 = "ibeam" ∧
    specAdoptedShape c2ex 0 0 "arrow" 100 = "crosshair" ∧
    getStabilizedCursorType c2ex 0 0 "arrow" 100 ≠
      specAdoptedShape c2ex 0 0 "arrow" 100 := by
  have h1 : getStabilizedCursorType c2ex 0 0 "arrow" 100 = "ibeam" := by
    norm_num [getStabilizedCursorType, lookaheadReverts, shapeD, jsOrString, c2ex,
      (show ("ibeam" : String) ≠ "" by decide),
      (show ("ibeam" : String) ≠ "arrow" by decide),
      (show ("crosshair" : String) ≠ "" by decide),
      (show ("crosshair" : String) ≠ "arrow" by decide)]
  have h2 : specAdoptedShape c2ex 0 0 "arrow" 100 = "crosshair" := by
    norm_num [specAdoptedShape, shapeD, jsOrString, c2ex, List.filter,
      List.getLastD,
      (show ("ibeam" : String) ≠ "" by decide),
      (show ("ibeam" : String) ≠ "arrow" by decide),
      (show ("crosshair" : String) ≠ "" by decide),
      (show ("crosshair" : String) ≠ "arrow" by decide)]
  refine ⟨by decide, h1, h2, ?_⟩
  rw [h1, h2]
  decide

theorem clickFold_id (D t : ℚ) :
    ∀ (l : List ClickEvent) (acc : Option ClickEvent),
      (∀ c ∈ l, ¬(0 ≤ t - c.timestamp ∧ t - c.timestamp ≤ D)) →
      l.foldl (clickStep D t) acc = acc := by
  intro l
  induction l with
  | nil => intro acc _; rfl
  | cons c rest ih =>
    intro acc h
    have hc := h c (by simp)
    have hstep : clickStep D t acc c = acc := by
      simp only [clickStep, if_neg hc]
    rw [List.foldl_cons, hstep]
    exact ih acc (fun j hj => h j (by simp [hj]))

theorem clickFold_mono (D t : ℚ) :
    ∀ (l : List ClickEvent) (a : ClickEvent),
      ∃ m, l.foldl (clickStep D t) (some a) = some m ∧ a.timestamp ≤ m.timestamp := by
  intro l
  induction l with
  | nil => intro a; exact ⟨a, rfl, le_refl _⟩
  | cons c rest ih =>
    intro a
    rw [List.foldl_cons]
    by_cases hq : 0 ≤ t - c.timestamp ∧ t - c.timestamp ≤ D
    · by_cases hlt : a.timestamp < c.timestamp
      · have hstep : clickStep D t (some a) c = some c := by
          simp only [clickStep, if_pos hq, if_pos hlt]
        rw [hstep]
        rcases ih c with ⟨m, hm, hle⟩
        exact ⟨m, hm, le_trans (le_of_lt hlt) hle⟩
      · have hstep : clickStep D t (some a) c = some a := by
          simp only [clickStep, if_pos hq, if_neg hlt]
        rw [hstep]
        exact ih a
    · have hstep : clickStep D t (some a) c = some a := by
        simp only [clickStep, if_neg hq]
      rw [hstep]
      exact ih a

theorem clickFold_ge (D t : ℚ) :
    ∀ (l : List ClickEvent) (acc : Option ClickEvent) (c : ClickEvent),
      c ∈ l → 0 ≤ t - c.timestamp → t - c.timestamp ≤ D →
      ∃ m, l.foldl (clickStep D t) acc = some m ∧ c.timestamp ≤ m.timestamp := by
  intro l
  induction l with
  | nil => intro acc c hc; exact absurd hc (by simp)
  | cons a rest ih =>
    intro acc c hc h0 hD2
    rcases List.mem_cons.mp hc with rfl | hc2
    · rw [List.foldl_cons]
      have hq : 0 ≤ t - c.timestamp ∧ t - c.timestamp ≤ D := ⟨h0, hD2⟩
      match acc with
      | none =>
        have hstep : clickStep D t none c = some c := by
          simp only [clickStep, if_pos hq]
        rw [hstep]
        exact clickFold_mono D t rest c
      | some a0 =>
        by_cases hlt : a0.timestamp < c.timestamp
        · have hstep : clickStep D t (some a0) c = some c := by
            simp only [clickStep, if_pos hq, if_pos hlt]
          rw [hstep]
          exact clickFold_mono D t rest c
        · have hstep : clickStep D t (some a0) c = some a0 := by
            simp only [clickStep, if_pos hq, if_neg hlt]
          rw [hstep]
          rcases clickFold_mono D t rest a0 with ⟨m, hm, hle⟩
          exact ⟨m, hm, le_trans (le_of_not_lt hlt) hle⟩
    · rw [List.foldl_cons]
      exact ih (clickStep D t acc a) c hc2 h0 hD2

theorem clickFold_mem (D t : ℚ) :
    ∀ (l : List ClickEvent) (acc : Option ClickEvent) (m : ClickEvent),
      l.foldl (clickStep D t) acc = some m →
      (m ∈ l ∧ 0 ≤ t - m.timestamp ∧ t - m.timestamp ≤ D) ∨ acc = some m := by
  intro l
  induction l with
  | nil => intro acc m h; exact Or.inr h
  | cons a rest ih =>
    intro acc m h
    rw [List.foldl_cons] at h
    rcases ih (clickStep D t acc a) m h with ⟨hmem, hq⟩ | hacc
    · exact Or.inl ⟨by simp [hmem], hq⟩
    · by_cases hqa : 0 ≤ t - a.timestamp ∧ t - a.timestamp ≤ D
      · match acc with
        | none =>
          have : clickStep D t none a = some a := by
            simp only [clickStep, if_pos hqa]
          rw [this] at hacc
          have hma : a = m := Option.some_inj.mp hacc
          exact Or.inl ⟨by simp [hma.symm], hma ▸ hqa⟩
        | some a0 =>
          by_cases hlt : a0.timestamp < a.timestamp
          · have : clickStep D t (some a0) a = some a := by
              simp only [clickStep, if_pos hqa, if_pos hlt]
            rw [this] at hacc
            have hma : a = m := Option.some_inj.mp hacc
            exact Or.inl ⟨by simp [hma.symm], hma ▸ hqa⟩
          · have : clickStep D t (some a0) a = some a0 := by
              simp only [clickStep, if_pos hqa, if_neg hlt]
            rw [this] at hacc
            exact Or.inr hacc
      · have : clickStep D t acc a = acc := by
          simp only [clickStep, if_neg hqa]
        rw [this] at hacc
        exact Or.inr hacc

/-- C4: with no down click inside the animation window the click scale is
exactly 1; when the most recent qualifying down click puts the query at
progress 0, 1/2 or 1 of the animation, the scale is 1, the configured
minimum, and 1 again respectively (ease out down, ease in up). -/
theorem calculateClickAnimationScale_spec (D S : ℚ) (hD : 0 < D) :
    (∀ (t : ℚ) (clicks : List ClickEvent),
      (∀ c ∈ clicks, c.action = "down" →
        ¬(0 ≤ t - c.timestamp ∧ t - c.timestamp ≤ D)) →
      calculateClickAnimationScale D S t clicks = 1) ∧
    (∀ (t : ℚ) (clicks : List ClickEvent) (c : ClickEvent),
      c ∈ clicks → c.action = "down" → c.timestamp = t →
      calculateClickAnimationScale D S t clicks = 1) ∧
    (∀ (t : ℚ) (clicks : List ClickEvent) (c : ClickEvent),
      c ∈ clicks → c.action = "down" → c.timestamp = t - D / 2 →
      (∀ j ∈ clicks, j.action = "down" → 0 ≤ t - j.timestamp →
        t - j.timestamp ≤ D → j.timestamp ≤ t - D / 2) →
      calculateClickAnimationScale D S t clicks = S) ∧
    (∀ (t : ℚ) (clicks : List ClickEvent) (c : ClickEvent),
      c ∈ clicks → c.action = "down" → c.timestamp = t - D →
      (∀ j ∈ clicks, j.action = "down" → 0 ≤ t - j.timestamp →
        t - j.timestamp ≤ D → j.timestamp ≤ t - D) →
      calculateClickAnimationScale D S t clicks = 1) := by
  have hmem_filter : ∀ (clicks : List ClickEvent) (c : ClickEvent),
      c ∈ clicks.filter (fun j => decide (j.action = "down")) ↔
        c ∈ clicks ∧ c.action = "down" := by
    intro clicks c
    rw [List.mem_filter]
    simp
  have main : ∀ (t T0 : ℚ) (clicks : List ClickEvent) (c : ClickEvent),
      c ∈ clicks → c.action = "down" → c.timestamp = T0 →
      0 ≤ t - T0 → t - T0 ≤ D →
      (∀ j ∈ clicks, j.action = "down" → 0 ≤ t - j.timestamp →
        t - j.timestamp ≤ D → j.timestamp ≤ T0) →
      ∃ m, (clicks.filter (fun j => decide (j.action = "down"))).foldl
          (clickStep D t) none = some m ∧ m.timestamp = T0 := by
    intro t T0 clicks c hc hdown hts h0 hle hmax
    have hcf : c ∈ clicks.filter (fun j => decide (j.action = "down")) :=
      (hmem_filter clicks c).mpr ⟨hc, hdown⟩
    rcases clickFold_ge D t _ none c hcf (hts ▸ h0) (hts ▸ hle) with ⟨m, hm, hge⟩
    rcases clickFold_mem D t _ none m hm with ⟨hmemf, hq0, hqD⟩ | habs
    · rcases (hmem_filter clicks m).mp hmemf with ⟨hmc, hmdown⟩
      have hmle : m.timestamp ≤ T0 := hmax m hmc hmdown hq0 hqD
      exact ⟨m, hm, le_antisymm hmle (hts ▸ hge)⟩
    · exact absurd habs (by simp)
  refine ⟨?_, ?_, ?_, ?_⟩
  · intro t clicks h
    have hfold := clickFold_id D t
      (clicks.filter (fun j => decide (j.action = "down"))) none
      (by
        intro j hj
        rcases (hmem_filter clicks j).mp hj with ⟨hjc, hjd⟩
        exact h j hjc hjd)
    simp only [calculateClickAnimationScale, hfold]
  · intro t clicks c hc hdown hts
    have hmax : ∀ j ∈ clicks, j.action = "down" → 0 ≤ t - j.timestamp →
        t - j.timestamp ≤ D → j.timestamp ≤ t := by
      intro j _ _ h0 _
      linarith
    rcases main t t clicks c hc hdown hts (by simp) (by simpa using le_of_lt hD)
      hmax with ⟨m, hm, hmts⟩
    simp only [calculateClickAnimationScale, hm, hmts, sub_self, zero_div]
    rw [if_pos (by norm_num : (0 : ℚ) < 1 / 2)]
    norm_num [easeOut]
  · intro t clicks c hc hdown hts hmax
    rcases main t (t - D / 2) clicks c hc hdown hts (by linarith) (by linarith)
      hmax with ⟨m, hm, hmts⟩
    have hprog : (t - m.timestamp) / D = 1 / 2 := by
      rw [hmts]
      field_simp
      ring
    simp only [calculateClickAnimationScale, hm, hprog]
    rw [if_neg (by norm_num : ¬((1 : ℚ) / 2 < 1 / 2))]
    norm_num [easeIn]
  · intro t clicks c hc hdown hts hmax
    rcases main t (t - D) clicks c hc hdown hts (by linarith) (by linarith)
      hmax with ⟨m, hm, hmts⟩
    have hprog : (t - m.timestamp) / D = 1 := by
      rw [hmts]
      field_simp
    simp only [calculateClickAnimationScale, hm, hprog]
    rw [if_neg (by norm_num : ¬((1 : ℚ) < 1 / 2))]
    norm_num [easeIn]

theorem calculateClickAnimationScale_spec_witness :
    (0 : ℚ) < 200 ∧
    calculateClickAnimationScale 200 (2 / 5) 0
      [⟨1000, 0, 0, "left", "down"⟩] = 1 ∧
    calculateClickAnimationScale 200 (2 / 5) 100
      [⟨100, 0, 0, "left", "down"⟩] = 1 ∧
    calculateClickAnimationScale 200 (2 / 5) 100
      [⟨0, 0, 0, "left", "down"⟩] = 2 / 5 ∧
    calculateClickAnimationScale 200 (2 / 5) 100
      [⟨-100, 0, 0, "left", "down"⟩] = 1 := by
  have h := calculateClickAnimationScale_spec 200 (2 / 5) (by norm_num)
  refine ⟨by norm_num, ?_, ?_, ?_, ?_⟩
  · exact h.1 0 [⟨1000, 0, 0, "left", "down"⟩] (by norm_num)
  · exact h.2.1 100 [⟨100, 0, 0, "left", "down"⟩] ⟨100, 0, 0, "left", "down"⟩
      (by simp) rfl rfl
  · exact h.2.2.1 100 [⟨0, 0, 0, "left", "down"⟩] ⟨0, 0, 0, "left", "down"⟩
      (by simp) rfl (by norm_num) (by norm_num)
  · exact h.2.2.2 100 [⟨-100, 0, 0, "left", "down"⟩] ⟨-100, 0, 0, "left", "down"⟩
      (by simp) rfl (by norm_num) (by norm_num)

/-- C6: the coordinate transform always lands in the video rectangle, and
is exactly clamp(offset subtracted and scaled) in the region case, and
clamp(scaled by video over screen) in the full screen case. -/
theorem convertToVideoCoordinates_spec :
    (∀ (vd : Dimensions) (sd : Option Dimensions) (rr : Option RecordingRegion)
      (sx sy : ℚ), 0 ≤ vd.width → 0 ≤ vd.height →
      0 ≤ (convertToVideoCoordinates vd sd rr sx sy).1 ∧
      (convertToVideoCoordinates vd sd rr sx sy).1 ≤ vd.width ∧
      0 ≤ (convertToVideoCoordinates vd sd rr sx sy).2 ∧
      (convertToVideoCoordinates vd sd rr sx sy).2 ≤ vd.height) ∧
    (∀ (vd : Dimensions) (sd : Option Dimensions) (r : RecordingRegion) (sx sy : ℚ),
      convertToVideoCoordinates vd sd (some r) sx sy =
        (max 0 (min vd.width ((sx - r.x) * (vd.width / r.width))),
         max 0 (min vd.height ((sy - r.y) * (vd.height / r.height))))) ∧
    (∀ (vd : Dimensions) (s : Dimensions) (sx sy : ℚ),
      0 < s.width → 0 < s.height →
      convertToVideoCoordinates vd (some s) none sx sy =
        (max 0 (min vd.width (sx * (vd.width / s.width))),
         max 0 (min vd.height (sy * (vd.height / s.height))))) := by
  refine ⟨?_, ?_, ?_⟩
  · intro vd sd rr sx sy hw hh
    refine ⟨le_max_left _ _, ?_, le_max_left _ _, ?_⟩
    · exact max_le hw (min_le_left _ _)
    · exact max_le hh (min_le_left _ _)
  · intro vd sd r sx sy
    simp only [convertToVideoCoordinates]
    by_cases hs : vd.width / r.width ≠ 1 ∨ vd.height / r.height ≠ 1
    · rw [if_pos hs, if_pos hs]
    · push_neg at hs
      rw [if_neg (by
          push_neg
          exact hs), if_neg (by
          push_neg
          exact hs)]
      rw [hs.1, hs.2, mul_one, mul_one]
  · intro vd s sx sy hw hh
    simp only [convertToVideoCoordinates]
    by_cases hne : s.width ≠ vd.width ∨ s.height ≠ vd.height
    · rw [if_pos hne]
      by_cases hs : vd.width / s.width ≠ 1 ∨ vd.height / s.height ≠ 1
      · rw [if_pos hs, if_pos hs]
      · push_neg at hs
        rw [if_neg (by
            push_neg
            exact hs), if_neg (by
            push_neg
            exact hs)]
        rw [hs.1, hs.2, mul_one, mul_one]
    · push_neg at hne
      have hcond : ¬(s.width ≠ vd.width ∨ s.height ≠ vd.height) := by
        push_neg
        exact hne
      have hscale : (if s.width ≠ vd.width ∨ s.height ≠ vd.height then
          (vd.width / s.width, vd.height / s.height) else ((1 : ℚ), (1 : ℚ)))
          = ((1 : ℚ), (1 : ℚ)) := if_neg hcond
      rw [hscale]
      have h1 : vd.width / s.width = 1 := by
        rw [← hne.1]
        exact div_self (ne_of_gt hw)
      have h2 : vd.height / s.height = 1 := by
        rw [← hne.2]
        exact div_self (ne_of_gt hh)
      rw [h1, h2, mul_one, mul_one]
      norm_num

theorem convertToVideoCoordinates_spec_witness :
    (0 : ℚ) ≤ 1920 ∧ (0 : ℚ) ≤ 1080 ∧
    (0 ≤ (convertToVideoCoordinates ⟨1920, 1080⟩ (some ⟨960, 540⟩) none 5000 (-50)).1 ∧
      (convertToVideoCoordinates ⟨1920, 1080⟩ (some ⟨960, 540⟩) none 5000 (-50)).1 ≤ 1920 ∧
      0 ≤ (convertToVideoCoordinates ⟨1920, 1080⟩ (some ⟨960, 540⟩) none 5000 (-50)).2 ∧
      (convertToVideoCoordinates ⟨1920, 1080⟩ (some ⟨960, 540⟩) none 5000 (-50)).2 ≤ 1080) ∧
    convertToVideoCoordinates ⟨1920, 1080⟩ (some ⟨960, 540⟩) none 5000 (-50) =
      (max 0 (min 1920 (5000 * ((1920 : ℚ) / 960))),
       max 0 (min 1080 ((-50) * ((1080 : ℚ) / 540)))) :=
  ⟨by norm_num, by norm_num,
    convertToVideoCoordinates_spec.1 ⟨1920, 1080⟩ (some ⟨960, 540⟩) none 5000 (-50)
      (by norm_num) (by norm_num),
    convertToVideoCoordinates_spec.2.2 ⟨1920, 1080⟩ ⟨960, 540⟩ 5000 (-50)
      (by norm_num) (by norm_num)⟩

theorem pairwise_mergeSort_ts {α : Type} (ts : α → ℚ) (l : List α) :
    List.Pairwise (fun a b => ts a ≤ ts b)
      (l.mergeSort (fun a b => decide (ts a ≤ ts b))) := by
  have h : List.Pairwise (fun a b : α =>
      (fun a b => decide (ts a ≤ ts b)) a b = true)
      (l.mergeSort (fun a b => decide (ts a ≤ ts b))) :=
    List.sorted_mergeSort
      (by
        intro a b c hab hbc
        simp only [decide_eq_true_eq] at *
        exact le_trans hab hbc)
      (by
        intro a b
        simp only [Bool.or_eq_true, decide_eq_true_eq]
        exact le_total _ _)
      l
  exact h.imp (by
    intro a b hab
    simpa using hab)

theorem head_rel_of_pairwise {α : Type} {R : α → α → Prop} {l : List α} {h x : α}
    (hp : List.Pairwise R l) (hh : l.head? = some h) (hx : x ∈ l) :
    x = h ∨ R h x := by
  cases l with
  | nil => simp at hh
  | cons a rest =>
    have ha : a = h := by simpa using hh
    rcases List.mem_cons.mp hx with rfl | hx2
    · exact Or.inl ha
    · exact Or.inr (ha ▸ (List.pairwise_cons.mp hp).1 x hx2)

theorem mem_of_getLast?_eq {α : Type} :
    ∀ {l : List α} {g : α}, l.getLast? = some g → g ∈ l := by
  intro l
  induction l with
  | nil => intro g h; simp at h
  | cons a rest ih =>
    intro g h
    cases rest with
    | nil =>
      simp only [List.getLast?_singleton, Option.some_inj] at h
      simp [h]
    | cons b r2 =>
      rw [List.getLast?_cons_cons] at h
      exact List.mem_cons_of_mem a (ih h)

theorem getLast_rel_of_pairwise {α : Type} {R : α → α → Prop} :
    ∀ {l : List α} {g x : α}, List.Pairwise R l → l.getLast? = some g → x ∈ l →
      x = g ∨ R x g := by
  intro l
  induction l with
  | nil => intro g x _ hg; simp at hg
  | cons a rest ih =>
    intro g x hp hg hx
    cases rest with
    | nil =>
      simp only [List.getLast?_singleton, Option.some_inj] at hg
      rcases List.mem_singleton.mp hx with rfl
      exact Or.inl hg
    | cons b r2 =>
      rw [List.getLast?_cons_cons] at hg
      rcases List.pairwise_cons.mp hp with ⟨hra, hp2⟩
      rcases List.mem_cons.mp hx with rfl | hx2
      · exact Or.inr (hra g (mem_of_getLast?_eq hg))
      · exact ih hp2 hg hx2

theorem getLast?_isSome_of_ne_nil {α : Type} {l : List α} (h : l ≠ []) :
    ∃ g, l.getLast? = some g := by
  cases l with
  | nil => exact absurd rfl h
  | cons a rest =>
    cases hg : (a :: rest).getLast? with
    | some g => exact ⟨g, rfl⟩
    | none =>
      rw [List.getLast?_eq_none_iff] at hg
      exact absurd hg (by simp)

theorem ensureEndKeyframe_spec (dur : ℚ) (l : List CursorKeyframe)
    (hl : l ≠ []) (hdur : 0 < dur) :
    ensureEndKeyframe dur l ≠ [] ∧
    (∀ x ∈ l, x ∈ ensureEndKeyframe dur l) ∧
    ∃ k ∈ ensureEndKeyframe dur l, dur ≤ k.timestamp := by
  rcases getLast?_isSome_of_ne_nil hl with ⟨lk, hg⟩
  simp only [ensureEndKeyframe, hg]
  by_cases hc : 0 < dur ∧ lk.timestamp < dur
  · rw [if_pos hc]
    refine ⟨by simp [hl], fun x hx => List.mem_append_left _ hx, ?_⟩
    exact ⟨⟨dur, lk.x, lk.y, none, lk.shape, none⟩,
      List.mem_append_right _ (by simp), le_refl _⟩
  · rw [if_neg hc]
    refine ⟨hl, fun x hx => hx, ⟨lk, mem_of_getLast?_eq hg, ?_⟩⟩
    rcases not_and_or.mp hc with h | h
    · exact absurd hdur h
    · exact le_of_not_lt h

theorem buildKeyframes_bounds (conv : Option (ℚ → ℚ → ℚ × ℚ)) (videoDuration : ℚ)
    (mouseEvents : List (MouseEvent ℚ)) (hne : 0 < mouseEvents.length)
    (hdur : 0 < videoDuration) :
    buildKeyframes conv videoDuration mouseEvents ≠ [] ∧
    (∃ k ∈ buildKeyframes conv videoDuration mouseEvents, k.timestamp ≤ 0) ∧
    (∃ k ∈ buildKeyframes conv videoDuration mouseEvents,
      videoDuration ≤ k.timestamp) := by
  by_cases hm : 0 <
      (mouseEvents.filter (fun e => decide (e.action = some "move"))).length
  · simp only [buildKeyframes, if_pos hm]
    rcases hm0 : mouseEvents.filter (fun e => decide (e.action = some "move")) with
      _ | ⟨m0, ms⟩
    · rw [hm0] at hm
      simp at hm
    · rw [hm0]
      have hzero : ∃ wz, ensureZeroKeyframe conv (m0 :: ms)
          (moveKeyframes conv (m0 :: ms)) = wz ∧ wz ≠ [] ∧
          ∃ x ∈ wz, x.timestamp ≤ 0 := by
        simp only [moveKeyframes, List.map_cons, ensureZeroKeyframe,
          List.head?_cons]
        by_cases hb : (0 : ℚ) <
            ((⟨m0.timestamp, (convertCoordsFn conv m0.x m0.y).1,
              (convertCoordsFn conv m0.x m0.y).2, none,
              some (toCursorShape m0.cursorType), some .linear⟩ :
                CursorKeyframe)).timestamp
        · rw [if_pos hb]
          exact ⟨_, rfl, by simp, ⟨0, (convertCoordsFn conv m0.x m0.y).1,
            (convertCoordsFn conv m0.x m0.y).2, none,
            some (toCursorShape m0.cursorType), some .linear⟩,
            by simp, le_refl _⟩
        · rw [if_neg hb]
          refine ⟨_, rfl, by simp, ⟨m0.timestamp, (convertCoordsFn conv m0.x m0.y).1,
            (convertCoordsFn conv m0.x m0.y).2, none,
            some (toCursorShape m0.cursorType), some .linear⟩, by simp, ?_⟩
          simpa using le_of_not_lt hb
      rcases hzero with ⟨wz, hwz, hwzne, x0, hx0, hx0le⟩
      rw [hwz]
      rcases ensureEndKeyframe_spec videoDuration wz hwzne hdur with
        ⟨hne2, hsub, kend, hkend, hkdur⟩
      exact ⟨hne2, ⟨x0, hsub x0 hx0, hx0le⟩, ⟨kend, hkend, hkdur⟩⟩
  · simp only [buildKeyframes, if_neg hm]
    rcases mouseEvents with _ | ⟨e0, es⟩
    · simp at hne
    · simp only [fallbackKeyframes, if_pos hdur]
      refine ⟨by simp, ?_, ?_⟩
      · exact ⟨_, List.mem_cons_self _ _, le_refl 0⟩
      · exact ⟨_, List.mem_cons_of_mem _ (List.mem_cons_self _ _), le_refl _⟩

/-- C7: for a nonempty raw event list and positive duration, the keyframe
output of the builder is sorted non decreasing by timestamp, its first
keyframe has timestamp at most 0, its last keyframe has timestamp at
least the video duration, and the click output is sorted ascending. -/
theorem convertMouseEventsToKeyframes_spec (mouseEvents : List (MouseEvent ℚ))
    (videoDuration : ℚ) (conv : Option (ℚ → ℚ → ℚ × ℚ))
    (hne : 0 < mouseEvents.length) (hdur : 0 < videoDuration) :
    List.Pairwise kfLE (convertMouseEventsToKeyframes mouseEvents videoDuration conv).1 ∧
    (∃ k0, (convertMouseEventsToKeyframes mouseEvents videoDuration conv).1.head? =
      some k0 ∧ k0.timestamp ≤ 0) ∧
    (∃ kl, (convertMouseEventsToKeyframes mouseEvents videoDuration conv).1.getLast? =
      some kl ∧ videoDuration ≤ kl.timestamp) ∧
    List.Pairwise (fun a b : ClickEvent => a.timestamp ≤ b.timestamp)
      (convertMouseEventsToKeyframes mouseEvents videoDuration conv).2 := by
  have h0 : ¬ mouseEvents.length = 0 := by omega
  simp only [convertMouseEventsToKeyframes, if_neg h0]
  rcases buildKeyframes_bounds conv videoDuration mouseEvents hne hdur with
    ⟨hbne, ⟨kz, hkz, hkz0⟩, ⟨ke, hke, hked⟩⟩
  have hperm := List.mergeSort_perm (buildKeyframes conv videoDuration mouseEvents)
    (fun a b => decide (a.timestamp ≤ b.timestamp))
  have hsorted : List.Pairwise kfLE
      ((buildKeyframes conv videoDuration mouseEvents).mergeSort
        (fun a b => decide (a.timestamp ≤ b.timestamp))) :=
    pairwise_mergeSort_ts CursorKeyframe.timestamp _
  have hsne : (buildKeyframes conv videoDuration mouseEvents).mergeSort
      (fun a b => decide (a.timestamp ≤ b.timestamp)) ≠ [] := by
    intro hnil
    rw [hnil] at hperm
    exact hbne (List.Perm.nil_eq hperm).symm
  refine ⟨hsorted, ?_, ?_, pairwise_mergeSort_ts ClickEvent.timestamp _⟩
  · rcases hh : ((buildKeyframes conv videoDuration mouseEvents).mergeSort
        (fun a b => decide (a.timestamp ≤ b.timestamp))).head? with _ | h
    · exact absurd (List.head?_eq_none_iff.mp hh) hsne
    · refine ⟨h, rfl, ?_⟩
      have hkzm : kz ∈ (buildKeyframes conv videoDuration mouseEvents).mergeSort
          (fun a b => decide (a.timestamp ≤ b.timestamp)) :=
        hperm.mem_iff.mpr hkz
      rcases head_rel_of_pairwise hsorted hh hkzm with rfl | hr
      · exact hkz0
      · exact le_trans hr hkz0
  · rcases getLast?_isSome_of_ne_nil hsne with ⟨g, hg⟩
    refine ⟨g, hg, ?_⟩
    have hkem : ke ∈ (buildKeyframes conv videoDuration mouseEvents).mergeSort
        (fun a b => decide (a.timestamp ≤ b.timestamp)) :=
      hperm.mem_iff.mpr hke
    rcases getLast_rel_of_pairwise hsorted hg hkem with rfl | hr
    · exact hked
    · exact le_trans hked hr

theorem convertMouseEventsToKeyframes_spec_witness :
    0 < ([⟨5, 1, 2, some "move", none, none⟩] : List (MouseEvent ℚ)).length ∧
    (0 : ℚ) < 100 ∧
    (List.Pairwise kfLE
      (convertMouseEventsToKeyframes [⟨5, 1, 2, some "move", none, none⟩] 100 none).1 ∧
    (∃ k0, (convertMouseEventsToKeyframes [⟨5, 1, 2, some "move", none, none⟩]
        100 none).1.head? = some k0 ∧ k0.timestamp ≤ 0) ∧
    (∃ kl, (convertMouseEventsToKeyframes [⟨5, 1, 2, some "move", none, none⟩]
        100 none).1.getLast? = some kl ∧ (100 : ℚ) ≤ kl.timestamp) ∧
    List.Pairwise (fun a b : ClickEvent => a.timestamp ≤ b.timestamp)
      (convertMouseEventsToKeyframes [⟨5, 1, 2, some "move", none, none⟩]
        100 none).2) :=
  ⟨by decide, by decide,
    convertMouseEventsToKeyframes_spec [⟨5, 1, 2, some "move", none, none⟩]
      100 none (by decide) (by decide)⟩

theorem interpSegment_linear (p q : CursorKeyframe) (t : ℚ)
    (he : easingOf p = .linear) (hlt : p.timestamp < q.timestamp) :
    (interpSegment p q t).x =
      p.x + (q.x - p.x) * ((t - p.timestamp) / (q.timestamp - p.timestamp)) ∧
    (interpSegment p q t).y =
      p.y + (q.y - p.y) * ((t - p.timestamp) / (q.timestamp - p.timestamp)) := by
  have hne : p.timestamp ≠ q.timestamp := ne_of_lt hlt
  have hd : 0 < q.timestamp - p.timestamp := by linarith
  simp [interpSegment, hne, hd, he, applyEasing]

/-- On a segment between adjacent keyframes p and q of a sorted sequence,
with the easing of p linear, the interpolated position at any t in
[p.timestamp, q.timestamp] is the linear blend of the two endpoints. -/
theorem interpolate_linear_value (A B : List CursorKeyframe) (p q : CursorKeyframe)
    (t : ℚ)
    (hA : ∀ a ∈ A, a.timestamp ≤ p.timestamp)
    (hqB : ∀ r ∈ B, q.timestamp < r.timestamp)
    (he : easingOf p = .linear) (hpq : p.timestamp < q.timestamp)
    (h1 : p.timestamp ≤ t) (h2 : t ≤ q.timestamp) :
    ∃ v, interpolateCursorPosition (A ++ p :: q :: B) t = some v ∧
      v.x = p.x + (q.x - p.x) * ((t - p.timestamp) / (q.timestamp - p.timestamp)) ∧
      v.y = p.y + (q.y - p.y) * ((t - p.timestamp) / (q.timestamp - p.timestamp)) := by
  rcases lt_or_eq_of_le h2 with hlt | heq
  · have hv := interpolate_on_segment A B p q t hA h1 hlt
    exact ⟨interpSegment p q t, hv, interpSegment_linear p q t he hpq⟩
  · have hA2 : ∀ a ∈ A ++ [p], a.timestamp ≤ q.timestamp := by
      intro a ha
      rcases List.mem_append.mp ha with h | h
      · exact le_trans (hA a h) (le_of_lt hpq)
      · simp only [List.mem_singleton] at h
        exact h ▸ le_of_lt hpq
    have hsh : (A ++ [p]) ++ q :: B = A ++ p :: q :: B := by
      rw [List.append_assoc]
      rfl
    rcases interpolate_at_last_of_timestamp (A ++ [p]) B q hA2 hqB with ⟨v, hv, hvx, hvy⟩
    rw [hsh] at hv
    have hd : q.timestamp - p.timestamp ≠ 0 := by
      have := ne_of_lt hpq
      intro hc
      exact this (by linarith)
    refine ⟨v, heq ▸ hv, ?_, ?_⟩
    · rw [hvx, heq, div_self hd]
      ring
    · rw [hvy, heq, div_self hd]
      ring

/-- C9: on a single interpolation segment whose starting keyframe uses
linear easing, the Euclidean distance from the position at t1 to the
position at t2 is non decreasing in t2. -/
theorem positionAt_distance_monotone (A B : List CursorKeyframe) (p q : CursorKeyframe)
    (t1 t2 t3 : ℚ)
    (hs : List.Pairwise kfLE (A ++ p :: q :: B))
    (hqB : ∀ r ∈ B, q.timestamp < r.timestamp)
    (he : easingOf p = .linear)
    (h1 : p.timestamp ≤ t1) (h12 : t1 < t2) (h23 : t2 ≤ t3) (h3q : t3 ≤ q.timestamp) :
    ∀ v1 v2 v3,
      interpolateCursorPosition (A ++ p :: q :: B) t1 = some v1 →
      interpolateCursorPosition (A ++ p :: q :: B) t2 = some v2 →
      interpolateCursorPosition (A ++ p :: q :: B) t3 = some v3 →
      Real.sqrt (((v1.x - v2.x : ℚ) : ℝ) ^ 2 + ((v1.y - v2.y : ℚ) : ℝ) ^ 2) ≤
        Real.sqrt (((v1.x - v3.x : ℚ) : ℝ) ^ 2 + ((v1.y - v3.y : ℚ) : ℝ) ^ 2) := by
  intro v1 v2 v3 hv1 hv2 hv3
  have hpq : p.timestamp < q.timestamp := by linarith
  rcases List.pairwise_append.mp hs with ⟨_, _, hcross⟩
  have hA : ∀ a ∈ A, a.timestamp ≤ p.timestamp := fun a ha => hcross a ha p (by simp)
  rcases interpolate_linear_value A B p q t1 hA hqB he hpq h1 (by linarith)
    with ⟨w1, hw1, hw1x, hw1y⟩
  rcases interpolate_linear_value A B p q t2 hA hqB he hpq (by linarith) (by linarith)
    with ⟨w2, hw2, hw2x, hw2y⟩
  rcases interpolate_linear_value A B p q t3 hA hqB he hpq (by linarith) h3q
    with ⟨w3, hw3, hw3x, hw3y⟩
  have e1 : v1 = w1 := by rw [hv1] at hw1; exact Option.some_inj.mp hw1
  have e2 : v2 = w2 := by rw [hv2] at hw2; exact Option.some_inj.mp hw2
  have e3 : v3 = w3 := by rw [hv3] at hw3; exact Option.some_inj.mp hw3
  subst e1 e2 e3
  have hD : 0 < q.timestamp - p.timestamp := by linarith
  apply Real.sqrt_le_sqrt
  have hu0 : 0 ≤ (t2 - t1) / (q.timestamp - p.timestamp) :=
    div_nonneg (by linarith) (le_of_lt hD)
  have huw : (t2 - t1) / (q.timestamp - p.timestamp) ≤
      (t3 - t1) / (q.timestamp - p.timestamp) :=
    by gcongr
  have husq : ((t2 - t1) / (q.timestamp - p.timestamp)) ^ 2 ≤
      ((t3 - t1) / (q.timestamp - p.timestamp)) ^ 2 := by nlinarith
  have eqa : (v1.x - v2.x) ^ 2 + (v1.y - v2.y) ^ 2 =
      ((q.x - p.x) ^ 2 + (q.y - p.y) ^ 2) *
        ((t2 - t1) / (q.timestamp - p.timestamp)) ^ 2 := by
    rw [hw1x, hw2x, hw1y, hw2y]
    ring
  have eqb : (v1.x - v3.x) ^ 2 + (v1.y - v3.y) ^ 2 =
      ((q.x - p.x) ^ 2 + (q.y - p.y) ^ 2) *
        ((t3 - t1) / (q.timestamp - p.timestamp)) ^ 2 := by
    rw [hw1x, hw3x, hw1y, hw3y]
    ring
  have qkey : (v1.x - v2.x) ^ 2 + (v1.y - v2.y) ^ 2 ≤
      (v1.x - v3.x) ^ 2 + (v1.y - v3.y) ^ 2 := by
    rw [eqa, eqb]
    exact mul_le_mul_of_nonneg_left husq (by positivity)
  exact_mod_cast qkey

theorem positionAt_distance_monotone_witness :
    List.Pairwise kfLE [⟨0, 0, 0, none, none, some .linear⟩, ⟨10, 3, 4, none, none, none⟩] ∧
    Real.sqrt (((3 / 10 - 6 / 10 : ℚ) : ℝ) ^ 2 + ((4 / 10 - 8 / 10 : ℚ) : ℝ) ^ 2) ≤
      Real.sqrt (((3 / 10 - 15 / 10 : ℚ) : ℝ) ^ 2 + ((4 / 10 - 20 / 10 : ℚ) : ℝ) ^ 2) := by
  refine ⟨by decide, ?_⟩
  have h := positionAt_distance_monotone [] [] ⟨0, 0, 0, none, none, some .linear⟩
    ⟨10, 3, 4, none, none, none⟩ 1 2 5 (by decide) (by decide) (by decide)
    (by norm_num) (by norm_num) (by norm_num) (by norm_num)
    ⟨3 / 10, 4 / 10, none, none⟩ ⟨6 / 10, 8 / 10, none, none⟩
    ⟨15 / 10, 20 / 10, none, none⟩
    (by norm_num [interpolateCursorPosition, bracketLoop, interpSegment, easingOf,
      applyEasing, jsOrShape, jsOrNum, List.headD])
    (by norm_num [interpolateCursorPosition, bracketLoop, interpSegment, easingOf,
      applyEasing, jsOrShape, jsOrNum, List.headD])
    (by norm_num [interpolateCursorPosition, bracketLoop, interpSegment, easingOf,
      applyEasing, jsOrShape, jsOrNum, List.headD])
  exact h

theorem regionTight_bounded {d : VideoDimensions} {r : ZoomRegion}
    (h : regionTight d r) : regionBounded d r := by
  obtain ⟨h1, h2, h3, h4, h5, h6, h7, h8⟩ := h
  exact ⟨h1, h2, h3, h4, by linarith, by linarith, by linarith, by linarith⟩

theorem calculateZoomRegion_tight (mouseX mouseY : ℝ) (d : VideoDimensions)
    (cfg : ZoomConfig) (hw : 0 < d.width) (hh : 0 < d.height)
    (hl : 1 ≤ cfg.level) : regionTight d (calculateZoomRegion mouseX mouseY d cfg) := by
  have hlpos : (0 : ℝ) < cfg.level := lt_of_lt_of_le one_pos hl
  have hcw : 0 < d.width / cfg.level := div_pos hw hlpos
  have hcwle : d.width / cfg.level ≤ d.width := div_le_self hw.le hl
  have hch : 0 < d.height / cfg.level := div_pos hh hlpos
  have hchle : d.height / cfg.level ≤ d.height := div_le_self hh.le hl
  have hmx : d.width / cfg.level / 2 ≤ d.width - d.width / cfg.level / 2 := by linarith
  have hmy : d.height / cfg.level / 2 ≤ d.height - d.height / cfg.level / 2 := by
    linarith
  refine ⟨hcw, hcwle, hch, hchle, ?_, ?_, ?_, ?_⟩
  · have := le_max_left (d.width / cfg.level / 2)
      (min (d.width - d.width / cfg.level / 2) mouseX)
    simp only [calculateZoomRegion]
    linarith
  · have := max_le hmx (min_le_left (d.width - d.width / cfg.level / 2) mouseX)
    simp only [calculateZoomRegion]
    linarith
  · have := le_max_left (d.height / cfg.level / 2)
      (min (d.height - d.height / cfg.level / 2) mouseY)
    simp only [calculateZoomRegion]
    linarith
  · have := max_le hmy (min_le_left (d.height - d.height / cfg.level / 2) mouseY)
    simp only [calculateZoomRegion]
    linarith

theorem easeInOut_bounds {t : ℝ} (h0 : 0 ≤ t) (h1 : t ≤ 1) :
    0 ≤ easeInOut t ∧ easeInOut t ≤ 1 := by
  unfold easeInOut
  by_cases h : t < 1 / 2
  · rw [if_pos h]
    constructor <;> nlinarith
  · rw [if_neg h]
    push_neg at h
    constructor <;> nlinarith

theorem convex_mem {a b k w : ℝ} (ha0 : 0 ≤ a) (haw : a ≤ w) (hb0 : 0 ≤ b)
    (hbw : b ≤ w) (hk0 : 0 ≤ k) (hk1 : k ≤ 1) :
    0 ≤ a + (b - a) * k ∧ a + (b - a) * k ≤ w := by
  constructor <;> nlinarith

theorem convex_pos {a b k : ℝ} (ha : 0 < a) (hb : 0 < b) (hk0 : 0 ≤ k)
    (hk1 : k ≤ 1) : 0 < a + (b - a) * k := by
  rcases lt_or_le k 1 with hk | hk
  · nlinarith [mul_pos ha (sub_pos.mpr hk), mul_nonneg hk0 hb.le]
  · have hk1e : k = 1 := le_antisymm hk1 hk
    rw [hk1e]
    nlinarith

theorem frameLoop_range_invariant {σ β : Type} (step : σ → ℕ → β × σ)
    (P : σ → ℕ → Prop) (Q : β → Prop)
    (hstep : ∀ s i, P s i → Q (step s i).1 ∧ P (step s i).2 (i + 1)) :
    ∀ (n j : ℕ) (s : σ), P s j → ∀ b ∈ frameLoop step s (List.range' j n), Q b := by
  intro n
  induction n with
  | zero =>
    intro j s _ b hb
    simp [List.range', frameLoop] at hb
  | succ m ih =>
    intro j s hP b hb
    rw [List.range'_succ] at hb
    simp only [frameLoop] at hb
    rcases List.mem_cons.mp hb with rfl | hb2
    · exact (hstep s j hP).1
    · exact ih (j + 1) (step s j).2 (hstep s j hP).2 b hb2

theorem zoomStep_preserves (events : List (MouseEvent ℝ)) (d : VideoDimensions)
    (cfg : ZoomConfig) (frameInterval : ℝ)
    (hw : 0 < d.width) (hh : 0 < d.height) (hl : 1 ≤ cfg.level)
    (hf0 : 0 ≤ cfg.followSpeed) (hf1 : cfg.followSpeed ≤ 1)
    (hts : 0 < cfg.transitionSpeed) (hfi : 0 ≤ frameInterval) :
    ∀ (st : Option ZoomRegion × ℝ) (i : ℕ),
      ((∀ r, st.1 = some r → regionBounded d r) ∧ st.2 ≤ (i : ℝ) * frameInterval) →
      regionBounded d (zoomStep events d cfg frameInterval st i).1 ∧
      ((∀ r, (zoomStep events d cfg frameInterval st i).2.1 = some r →
          regionBounded d r) ∧
        (zoomStep events d cfg frameInterval st i).2.2 ≤
          (((i : ℕ) + 1 : ℕ) : ℝ) * frameInterval) := by
  rintro ⟨op, start⟩ i ⟨hbound, hstart⟩
  simp only at hbound hstart
  have hstep : (i : ℝ) * frameInterval ≤ ((i + 1 : ℕ) : ℝ) * frameInterval := by
    apply mul_le_mul_of_nonneg_right _ hfi
    push_cast
    linarith
  have hadj : ∀ ms : ℝ, (1 : ℝ) ≤
      (if (2 : ℝ) < ms then max 1 (cfg.level - (ms - 2) * 0.1) else cfg.level) := by
    intro ms
    by_cases h : (2 : ℝ) < ms
    · rw [if_pos h]
      exact le_max_left _ _
    · rw [if_neg h]
      exact hl
  cases op with
  | none =>
    simp only [zoomStep]
    set eidx := findEventIndex ((i : ℝ) * frameInterval) events 0 0 with heidx
    set ms := calculateMovementSpeed events eidx with hms
    set ev := (events[min eidx (events.length - 1)]?).getD dummyEvent with hev
    set lvl := if (2 : ℝ) < ms then max 1 (cfg.level - (ms - 2) * 0.1) else cfg.level
      with hlvl
    set tgt := calculateZoomRegion ev.x ev.y d
      ⟨cfg.enabled, lvl, cfg.transitionSpeed, cfg.padding, cfg.followSpeed⟩ with htgtdef
    obtain ⟨htw, htwle, hth, hthle, htx0, htxw, hty0, htyh⟩ :=
      regionTight_bounded (calculateZoomRegion_tight ev.x ev.y d
        ⟨cfg.enabled, lvl, cfg.transitionSpeed, cfg.padding, cfg.followSpeed⟩
        hw hh (hadj ms))
    refine ⟨?_, ?_, le_trans hstart hstep⟩
    · exact ⟨htw, htwle, hth, hthle, htx0, htxw, hty0, htyh⟩
    · intro r hr
      rw [← Option.some_inj.mp hr]
      exact ⟨htw, htwle, hth, hthle, htx0, htxw, hty0, htyh⟩
  | some cur =>
    obtain ⟨hcw, hcwle, hch, hchle, hcx0, hcxw, hcy0, hcyh⟩ := hbound cur rfl
    simp only [zoomStep]
    set eidx := findEventIndex ((i : ℝ) * frameInterval) events 0 0 with heidx
    set ms := calculateMovementSpeed events eidx with hms
    set ev := (events[min eidx (events.length - 1)]?).getD dummyEvent with hev
    set lvl := if (2 : ℝ) < ms then max 1 (cfg.level - (ms - 2) * 0.1) else cfg.level
      with hlvl
    set tgt := calculateZoomRegion ev.x ev.y d
      ⟨cfg.enabled, lvl, cfg.transitionSpeed, cfg.padding, cfg.followSpeed⟩ with htgtdef
    obtain ⟨htw, htwle, hth, hthle, htx0, htxw, hty0, htyh⟩ :=
      regionTight_bounded (calculateZoomRegion_tight ev.x ev.y d
        ⟨cfg.enabled, lvl, cfg.transitionSpeed, cfg.padding, cfg.followSpeed⟩
        hw hh (hadj ms))
    set progress := min 1 (((i : ℝ) * frameInterval - start) / cfg.transitionSpeed)
      with hprogdef
    have hp0 : 0 ≤ progress := by
      apply le_min
      · norm_num
      · exact div_nonneg (by simpa using hstart) hts.le
    have hp1 : progress ≤ 1 := min_le_left _ _
    have heb := easeInOut_bounds hp0 hp1
    by_cases hprog : 1 ≤ progress
    · rw [if_pos hprog]
      refine ⟨?_, ?_, hstep⟩
      · exact ⟨htw, htwle, hth, hthle, htx0, htxw, hty0, htyh⟩
      · intro r hr
        rw [← Option.some_inj.mp hr]
        exact ⟨htw, htwle, hth, hthle, htx0, htxw, hty0, htyh⟩
    · rw [if_neg hprog]
      have hk0 : 0 ≤ easeInOut progress * cfg.followSpeed :=
        mul_nonneg heb.1 hf0
      have hk1 : easeInOut progress * cfg.followSpeed ≤ 1 :=
        mul_le_one₀ heb.2 hf0 hf1
      have hblend : regionBounded d ⟨(i : ℝ) * frameInterval,
          cur.centerX + (tgt.centerX - cur.centerX) *
            easeInOut progress * cfg.followSpeed,
          cur.centerY + (tgt.centerY - cur.centerY) *
            easeInOut progress * cfg.followSpeed,
          cur.cropWidth + (tgt.cropWidth - cur.cropWidth) * easeInOut progress,
          cur.cropHeight + (tgt.cropHeight - cur.cropHeight) * easeInOut progress,
          cur.scale + (tgt.scale - cur.scale) * easeInOut progress⟩ := by
        refine ⟨?_, ?_, ?_, ?_, ?_, ?_, ?_, ?_⟩
        · exact convex_pos hcw htw heb.1 heb.2
        · exact (convex_mem hcw.le hcwle htw.le htwle heb.1 heb.2).2
        · exact convex_pos hch hth heb.1 heb.2
        · exact (convex_mem hch.le hchle hth.le hthle heb.1 heb.2).2
        · have h := (convex_mem hcx0 hcxw htx0 htxw hk0 hk1).1
          ring_nf at h ⊢
          linarith [h]
        · have h := (convex_mem hcx0 hcxw htx0 htxw hk0 hk1).2
          ring_nf at h ⊢
          linarith [h]
        · have h := (convex_mem hcy0 hcyh hty0 htyh hk0 hk1).1
          ring_nf at h ⊢
          linarith [h]
        · have h := (convex_mem hcy0 hcyh hty0 htyh hk0 hk1).2
          ring_nf at h ⊢
          linarith [h]
      refine ⟨hblend, ?_, le_trans hstart hstep⟩
      intro r hr
      rw [← Option.some_inj.mp hr]
      exact hblend

/-- C3 (amended): every region from calculateZoomRegion satisfies the full
crop rectangle invariant; the blended regions emitted by
generateZoomRegions keep positive crop sizes bounded by the video and
centers inside the video rectangle, but not necessarily the derived crop
rectangle containment (see the counterexample). -/
theorem zoomRegion_invariants (events : List (MouseEvent ℝ)) (d : VideoDimensions)
    (cfg : ZoomConfig) (frameRate videoDuration : ℝ)
    (hw : 0 < d.width) (hh : 0 < d.height) (hl : 1 ≤ cfg.level)
    (hf0 : 0 ≤ cfg.followSpeed) (hf1 : cfg.followSpeed ≤ 1)
    (hts : 0 < cfg.transitionSpeed) (hfr : 0 < frameRate) :
    (∀ mouseX mouseY, regionTight d (calculateZoomRegion mouseX mouseY d cfg)) ∧
    (∀ r ∈ generateZoomRegions events d cfg frameRate videoDuration,
      regionBounded d r) := by
  constructor
  · intro mouseX mouseY
    exact calculateZoomRegion_tight mouseX mouseY d cfg hw hh hl
  · intro r hr
    by_cases he : cfg.enabled = false
    · rw [generateZoomRegions, if_pos he] at hr
      rcases List.mem_singleton.mp hr with rfl
      exact ⟨by simpa using hw, le_refl _, by simpa using hh, le_refl _,
        by simp; linarith, by simp; linarith, by simp; linarith, by simp; linarith⟩
    · rw [generateZoomRegions, if_neg he] at hr
      have hfi : (0 : ℝ) ≤ 1000 / frameRate := div_nonneg (by norm_num) hfr.le
      have hinv := frameLoop_range_invariant
        (zoomStep events d cfg (1000 / frameRate))
        (fun st j => (∀ r2, st.1 = some r2 → regionBounded d r2) ∧
          st.2 ≤ (j : ℝ) * (1000 / frameRate))
        (regionBounded d)
        (zoomStep_preserves events d cfg (1000 / frameRate) hw hh hl hf0 hf1 hts hfi)
        ((Int.ceil (videoDuration / (1000 / frameRate))).toNat) 0 (none, 0)
        ⟨by simp, by simp⟩
      simp only [List.range_eq_range'] at hr
      exact hinv r hr

theorem zoomRegion_invariants_witness :
    (0 : ℝ) < 100 ∧ (1 : ℝ) ≤ 2 ∧ (0 : ℝ) ≤ 1 / 2 ∧ (1 : ℝ) / 2 ≤ 1 ∧
    (0 : ℝ) < 300 ∧ (0 : ℝ) < 10 ∧
    regionTight ⟨100, 100⟩ (calculateZoomRegion 500 (-20) ⟨100, 100⟩
      ⟨true, 2, 300, 0, 1 / 2⟩) :=
  ⟨by norm_num, by norm_num, by norm_num, by norm_num, by norm_num, by norm_num,
    (zoomRegion_invariants [] ⟨100, 100⟩ ⟨true, 2, 300, 0, 1 / 2⟩ 10 0
      (by norm_num) (by norm_num) (by norm_num) (by norm_num) (by norm_num)
      (by norm_num) (by norm_num)).1 500 (-20)⟩

theorem c3_speed : calculateMovementSpeed c3events 2 = 300 := by
  have h9 : Real.sqrt 90000 = 300 := by
    rw [show (90000 : ℝ) = 300 ^ 2 by norm_num]
    exact Real.sqrt_sq (by norm_num)
  simp only [calculateMovementSpeed, c3events]
  norm_num [h9]

theorem c3_step0 : zoomStep c3events c3dims c3cfg (1000 / 10) ((none, 0)) 0 =
    (c3r0, (some c3r0, 0)) := by
  simp only [zoomStep, c3events, c3dims, c3cfg, c3r0, findEventIndex,
    calculateMovementSpeed, calculateZoomRegion, dummyEvent]
  norm_num [min_def, max_def]

theorem c3_step1 : zoomStep c3events c3dims c3cfg (1000 / 10) ((some c3r0, 0)) 1 =
    (c3r1, (some c3r1, 0)) := by
  simp only [zoomStep, c3dims, c3cfg, c3r0, c3r1]
  rw [show findEventIndex ((1 : ℕ) * (1000 / 10) : ℝ) c3events 0 0 = 2 by
    simp only [c3events, findEventIndex]
    norm_num]
  rw [c3_speed]
  rw [show (c3events[2 ⊓ (c3events.length - 1)]?).getD dummyEvent =
      (⟨51, 300, 0, some "move", none, none⟩ : MouseEvent ℝ) by simp [c3events]]
  dsimp only
  norm_num [min_def, max_def, easeInOut, calculateZoomRegion]

theorem c3_total : (Int.ceil ((200 : ℝ) / (1000 / 10))).toNat = 2 := by
  rw [show ((200 : ℝ) / (1000 / 10)) = ((2 : ℤ) : ℝ) by norm_num, Int.ceil_intCast]
  rfl

/-- C3 (counterexample): the run on c3events produces a blended second
region whose crop rectangle extends past the left video edge, refuting the
claim that every region emitted by generateZoomRegions keeps the
crop rectangle inside the video bounds. -/
theorem c3_counterexample :
    c3cfg.enabled = true ∧ (1 : ℝ) ≤ c3cfg.level ∧ (0 : ℝ) ≤ c3cfg.followSpeed ∧
    c3cfg.followSpeed ≤ 1 ∧ (0 : ℝ) < c3cfg.transitionSpeed ∧
    (0 : ℝ) < c3dims.width ∧ (0 : ℝ) < c3dims.height ∧
    generateZoomRegions c3events c3dims c3cfg 10 200 = [c3r0, c3r1] ∧
    c3r1.centerX - c3r1.cropWidth / 2 < 0 := by
  refine ⟨rfl, by norm_num [c3cfg], by norm_num [c3cfg], by norm_num [c3cfg],
    by norm_num [c3cfg], by norm_num [c3dims], by norm_num [c3dims], ?_, ?_⟩
  · rw [generateZoomRegions, if_neg (by norm_num [c3cfg])]
    simp only [c3_total]
    rw [show List.range 2 = [0, 1] from rfl]
    simp only [frameLoop]
    rw [c3_step0]
    simp only [frameLoop]
    rw [c3_step1]
  · norm_num [c3r1]

theorem frameLoop_length {σ β : Type} (step : σ → ℕ → β × σ) :
    ∀ (l : List ℕ) (s : σ), (frameLoop step s l).length = l.length := by
  intro l
  induction l with
  | nil => intro s; rfl
  | cons i rest ih =>
    intro s
    simp only [frameLoop, List.length_cons, ih]

theorem frameLoop_getElem?_prop {σ β : Type} (step : σ → ℕ → β × σ)
    (P : ℕ → β → Prop) (hstep : ∀ s i, P i (step s i).1) :
    ∀ (l : List ℕ) (s : σ) (n : ℕ) (x : β),
      (frameLoop step s l)[n]? = some x → ∃ i, l[n]? = some i ∧ P i x := by
  intro l
  induction l with
  | nil =>
    intro s n x h
    simp [frameLoop] at h
  | cons i rest ih =>
    intro s n x h
    cases n with
    | zero =>
      simp only [frameLoop, List.getElem?_cons_zero, Option.some_inj] at h
      exact ⟨i, by simp, h ▸ hstep s i⟩
    | succ m =>
      simp only [frameLoop, List.getElem?_cons_succ] at h ⊢
      exact ih (step s i).2 m x h

theorem frameDataStep_fields (events : List (MouseEvent ℝ))
    (scaleX scaleY followSpeed : ℝ) (zc : Option ZoomConfig) (frameInterval : ℝ) :
    ∀ (s : ℝ × ℝ) (i : ℕ),
      (frameDataStep events scaleX scaleY followSpeed zc frameInterval s i).1.frameIndex
        = i ∧
      (frameDataStep events scaleX scaleY followSpeed zc frameInterval s i).1.timestamp
        = (i : ℝ) * frameInterval := by
  intro s i
  rcases zc with _ | c
  · exact ⟨rfl, rfl⟩
  · simp only [frameDataStep]
    by_cases hce : c.enabled = true
    · rw [if_pos hce]
      exact ⟨rfl, rfl⟩
    · rw [if_neg hce]
      exact ⟨rfl, rfl⟩

theorem range_getElem?_eq {m n i : ℕ} (h : (List.range m)[n]? = some i) : i = n := by
  rcases List.getElem?_eq_some.mp h with ⟨hn, hget⟩
  simp only [List.getElem_range] at hget
  exact hget.symm

/-- C5: both per frame plan builders emit exactly
ceil(videoDuration/(1000/frameRate)) entries, entry n carrying frameIndex n
and timestamp n * (1000/frameRate). -/
theorem frame_plan_counts (events : List (MouseEvent ℝ))
    (frameRate videoDuration : ℝ) (vd sd : VideoDimensions)
    (zc : Option ZoomConfig) (regions : List ZoomRegion)
    (hfr : 0 < frameRate) (hdur : 0 < videoDuration) :
    (createFrameDataFromEvents events frameRate videoDuration vd sd zc).length =
      (Int.ceil (videoDuration / (1000 / frameRate))).toNat ∧
    (∀ (n : ℕ) (x : FrameData),
      (createFrameDataFromEvents events frameRate videoDuration vd sd zc)[n]? =
        some x → x.frameIndex = n ∧ x.timestamp = (n : ℝ) * (1000 / frameRate)) ∧
    (calculateFrameZoomData regions vd frameRate videoDuration).length =
      (Int.ceil (videoDuration / (1000 / frameRate))).toNat ∧
    (∀ (n : ℕ) (x : FrameZoomData),
      (calculateFrameZoomData regions vd frameRate videoDuration)[n]? = some x →
      x.frameIndex = n ∧ x.timestamp = (n : ℝ) * (1000 / frameRate)) := by
  refine ⟨?_, ?_, ?_, ?_⟩
  · simp only [createFrameDataFromEvents, frameLoop_length, List.length_range]
  · intro n x hx
    simp only [createFrameDataFromEvents] at hx
    rcases frameLoop_getElem?_prop _
      (fun i y => y.frameIndex = i ∧ y.timestamp = (i : ℝ) * (1000 / frameRate))
      (frameDataStep_fields events (vd.width / sd.width) (vd.height / sd.height)
        _ zc (1000 / frameRate)) _ _ n x hx with ⟨i, hi, hP⟩
    rcases range_getElem?_eq hi with rfl
    exact hP
  · simp only [calculateFrameZoomData, List.length_map, List.length_range]
  · intro n x hx
    simp only [calculateFrameZoomData, List.getElem?_map] at hx
    rcases ho : (List.range ((Int.ceil (videoDuration / (1000 / frameRate))).toNat))[n]?
      with _ | i
    · rw [ho] at hx
      exact Option.noConfusion hx
    · rw [ho] at hx
      rcases range_getElem?_eq ho with rfl
      simp only [Option.map_some', Option.some_inj] at hx
      rw [← hx]
      exact ⟨rfl, rfl⟩

theorem frame_plan_counts_witness :
    (0 : ℝ) < 30 ∧ (0 : ℝ) < 1000 ∧
    (createFrameDataFromEvents
      [⟨0, 0, 0, some "move", none, none⟩, ⟨1000, 100, 0, some "move", none, none⟩]
      30 1000 ⟨200, 100⟩ ⟨200, 100⟩ none).length = 30 ∧
    (calculateFrameZoomData [] ⟨200, 100⟩ 30 1000).length = 30 := by
  have hceil : (Int.ceil ((1000 : ℝ) / (1000 / 30))).toNat = 30 := by
    rw [show ((1000 : ℝ) / (1000 / 30)) = ((30 : ℤ) : ℝ) by norm_num, Int.ceil_intCast]
    rfl
  have h := frame_plan_counts
    [⟨0, 0, 0, some "move", none, none⟩, ⟨1000, 100, 0, some "move", none, none⟩]
    30 1000 ⟨200, 100⟩ ⟨200, 100⟩ none [] (by norm_num) (by norm_num)
  exact ⟨by norm_num, by norm_num, h.1.trans hceil, h.2.2.1.trans hceil⟩

/-- C8 (amended): every frame emitted by generateHighlightRing carries a
pulse value in [0,1] driving opacity 0.7 + pulse*0.3 in [0.7,1] and size
between 100 percent and 120 percent of the configured ring size (the
oscillation never goes below the configured size). -/
theorem generateHighlightRing_spec (events : List (MouseEvent ℝ))
    (config : HighlightRingConfig) (frameRate : ℝ) (hs : 0 ≤ config.size) :
    ∀ f ∈ generateHighlightRing events config frameRate,
      ∃ p : ℝ, 0 ≤ p ∧ p ≤ 1 ∧
        f.opacity = 0.7 + p * 0.3 ∧ (0.7 ≤ f.opacity ∧ f.opacity ≤ 1) ∧
        f.size = config.size * (1 + p * 0.2) ∧
        (config.size ≤ f.size ∧ f.size ≤ 1.2 * config.size) := by
  intro f hf
  rw [generateHighlightRing] at hf
  by_cases he : config.enabled = false
  · rw [if_pos he] at hf
    simp at hf
  · rw [if_neg he] at hf
    rcases List.mem_filterMap.mp hf with ⟨e, _, hfe⟩
    by_cases hmove : e.action ≠ some "move"
    · rw [if_pos hmove] at hfe
      exact Option.noConfusion hfe
    · rw [if_neg hmove] at hfe
      set p := Real.sin (e.timestamp / 1000 * config.pulseSpeed * 10) * 0.5 + 0.5
        with hp
      have hsin1 : Real.sin (e.timestamp / 1000 * config.pulseSpeed * 10) ≤ 1 :=
        Real.sin_le_one _
      have hsin2 : -1 ≤ Real.sin (e.timestamp / 1000 * config.pulseSpeed * 10) :=
        Real.neg_one_le_sin _
      have hp0 : 0 ≤ p := by rw [hp]; nlinarith
      have hp1 : p ≤ 1 := by rw [hp]; nlinarith
      have hfeq : f = ⟨e.timestamp, "highlightRing", e.x, e.y,
          0.7 + p * 0.3, config.size * (1 + p * 0.2), config.color⟩ :=
        (Option.some_inj.mp hfe).symm
      refine ⟨p, hp0, hp1, by rw [hfeq], ⟨?_, ?_⟩, by rw [hfeq], ?_, ?_⟩
      · rw [hfeq]
        simp only
        nlinarith
      · rw [hfeq]
        simp only
        nlinarith
      · rw [hfeq]
        simp only
        nlinarith
      · rw [hfeq]
        simp only
        nlinarith

theorem generateHighlightRing_spec_witness :
    (0 : ℝ) ≤ 10 ∧
    (⟨0, "highlightRing", 1, 2, 0.85, 11, "#fff"⟩ : EffectFrame) ∈
      generateHighlightRing [⟨0, 1, 2, some "move", none, none⟩]
        ⟨true, 10, "#fff", 1⟩ 30 ∧
    ∃ p : ℝ, 0 ≤ p ∧ p ≤ 1 ∧
      (⟨0, "highlightRing", 1, 2, 0.85, 11, "#fff"⟩ : EffectFrame).opacity =
        0.7 + p * 0.3 ∧
      (0.7 ≤ (⟨0, "highlightRing", 1, 2, 0.85, 11, "#fff"⟩ : EffectFrame).opacity ∧
        (⟨0, "highlightRing", 1, 2, 0.85, 11, "#fff"⟩ : EffectFrame).opacity ≤ 1) ∧
      (⟨0, "highlightRing", 1, 2, 0.85, 11, "#fff"⟩ : EffectFrame).size =
        10 * (1 + p * 0.2) ∧
      (10 ≤ (⟨0, "highlightRing", 1, 2, 0.85, 11, "#fff"⟩ : EffectFrame).size ∧
        (⟨0, "highlightRing", 1, 2, 0.85, 11, "#fff"⟩ : EffectFrame).size ≤ 1.2 * 10) := by
  have hmem : (⟨0, "highlightRing", 1, 2, 0.85, 11, "#fff"⟩ : EffectFrame) ∈
      generateHighlightRing [⟨0, 1, 2, some "move", none, none⟩]
        ⟨true, 10, "#fff", 1⟩ 30 := by
    rw [show generateHighlightRing [⟨0, 1, 2, some "move", none, none⟩]
        ⟨true, 10, "#fff", 1⟩ 30 =
        [⟨0, "highlightRing", 1, 2, 0.85, 11, "#fff"⟩] by
      simp only [generateHighlightRing, List.filterMap]
      norm_num [Real.sin_zero]]
    exact List.mem_singleton_self _
  exact ⟨by norm_num, hmem,
    generateHighlightRing_spec [⟨0, 1, 2, some "move", none, none⟩]
      ⟨true, 10, "#fff", 1⟩ 30 (by norm_num) _ hmem⟩

/-- C8 (counterexample): at the pulse minimum (sin = -1) the emitted size is
exactly the configured size, never 20 percent below it, so the size does
not oscillate by plus or minus 20 percent around the configured size. -/
theorem c8_counterexample :
    generateHighlightRing [⟨150 * Real.pi, 3, 4, some "move", none, none⟩]
      ⟨true, 10, "#ffcc00", 1⟩ 30 =
      [⟨150 * Real.pi, "highlightRing", 3, 4, 0.7, 10, "#ffcc00"⟩] ∧
    (10 : ℝ) ≠ 0.8 * 10 := by
  have hsin : Real.sin (150 * Real.pi / 1000 * 10) = -1 := by
    rw [show 150 * Real.pi / 1000 * 10 = Real.pi + Real.pi / 2 by ring]
    simp [Real.sin_add]
  constructor
  · simp only [generateHighlightRing, List.filterMap]
    norm_num [hsin]
  · norm_num
